import Mathlib

/-!
Verification of the chess-game rules-and-search core.

This file shallow-embeds the TypeScript core of the repository:
  * the data model (`helpers/interfaces.ts`),
  * the consolidated basic move validation (`helpers/chess-basic-validation.ts`,
    bundled into `core/helpers/chess-evaluation.ts` in the snapshot),
  * the core board utilities (`helpers/chess-core-utils.ts`),
  * the advanced rules (check / checkmate / stalemate / legal moves,
    `helpers/chess-advanced-rules.ts` and `core/helpers/chess-advanced-rules.ts`),
  * the per-piece move rules with castling and square-attack detection
    (third module concatenated in `helpers/chess-utils.ts`),
  * the static position evaluator (`core/helpers/chess-evaluation.ts`),
  * the game-state service (`services/app.service.ts`) with its
    signal-effect pipeline (move detection, state update, status check),
  * the AI worker search (`workers/ai.worker.ts`) and the worker-pool
    partition/reduce logic (`services/worker-pool.service.ts`).

Modelling conventions:
  * JavaScript numbers used as board coordinates are modelled as `Int`
    (coordinate arithmetic can go negative); `NaN` produced by
    `charCodeAt` on a missing character is modelled by a far-out-of-range
    sentinel, which fails every bounds comparison exactly as `NaN` does in
    the guarded code paths.
  * Evaluation scores are modelled as exact rationals `ℚ` (the reference
    arithmetic of the JavaScript evaluator), and the search's `±Infinity`
    sentinels as `⊥`/`⊤` of `WithBot (WithTop ℚ)`.
  * Mutation of the board is modelled by functional updates; Angular
    signals of the service are fields of an explicit `AppState` record
    and the signal effects run synchronously after `board.set`.
-/

namespace Chess

/-- Piece types, from the `PieceType` enum of `helpers/interfaces.ts`. -/
inductive PieceType where
  | pawn | knight | bishop | rook | queen | king
deriving DecidableEq, Repr

/-- Piece colors, from the `PieceColor` enum. -/
inductive PieceColor where
  | white | black
deriving DecidableEq, Repr

/-- Square colors, from the `SquareColor` enum. -/
inductive SquareColor where
  | light | dark
deriving DecidableEq, Repr

/-- A chess piece, from the `ChessPiece` interface.  The optional
`hasMoved?: boolean` field is an `Option Bool` (`none` = the field is
absent, as for all initially placed pieces).  The optional cosmetic
`image` field is never read or written by the game logic and is omitted. -/
structure ChessPiece where
  id : Int
  type : PieceType
  color : PieceColor
  position : String
  hasMoved : Option Bool
deriving DecidableEq, Repr

/-- A board square, from the `ChessSquare` interface. -/
structure ChessSquare where
  position : String
  color : SquareColor
  piece : Option ChessPiece
deriving DecidableEq, Repr

/-- The board: an 8×8 grid `ChessSquare[][]`. -/
abbrev Board := List (List ChessSquare)

/-- JavaScript truthiness of the optional `hasMoved` field
(`undefined` and `false` are falsy). -/
def hasMovedB (p : ChessPiece) : Bool :=
  p.hasMoved = some true

/-- The opponent color (`color === White ? Black : White`). -/
def oppColor (c : PieceColor) : PieceColor :=
  match c with
  | PieceColor.white => PieceColor.black
  | PieceColor.black => PieceColor.white

/-- A well-formed board has 8 rows of 8 squares (invariant of every board
built by `createEmptyBoard` and preserved by all the update operations). -/
def wfBoard (b : Board) : Prop :=
  b.length = 8 ∧ ∀ row ∈ b, row.length = 8

instance (b : Board) : Decidable (wfBoard b) := by
  unfold wfBoard; infer_instance

/-- The empty square used as the (unreachable) out-of-bounds default of
`boardSq`; the TypeScript code never indexes the board outside a
bounds-checked path. -/
def oobSquare : ChessSquare :=
  { position := "", color := SquareColor.light, piece := none }

/-- `board[row][col]` for `Int` coordinates, with the out-of-bounds
default `oobSquare` (only bounds-checked call sites exist in the code). -/
def boardSq (b : Board) (r c : Int) : ChessSquare :=
  if 0 ≤ r ∧ 0 ≤ c then (b.getD r.toNat []).getD c.toNat oobSquare
  else oobSquare

/-- The piece (or `none`) at `board[row][col]`. -/
def pieceAtRC (b : Board) (r c : Int) : Option ChessPiece :=
  (boardSq b r c).piece

/-- Functional update of `board[row][col].piece = pc` (in-bounds only),
modelling the TypeScript in-place square mutation. -/
def setPieceRC (b : Board) (r c : Int) (pc : Option ChessPiece) : Board :=
  if 0 ≤ r ∧ 0 ≤ c then
    b.set r.toNat ((b.getD r.toNat []).set c.toNat
      { (b.getD r.toNat []).getD c.toNat oobSquare with piece := pc })
  else b

namespace BasicValidation

/-- `BOARD_SIZE` from `chess-basic-validation.ts`. -/
def BOARD_SIZE : Int := 8

/-- `FILE_A_CODE` from `chess-basic-validation.ts`. -/
def FILE_A_CODE : Int := 97

/-- Sentinel modelling the JavaScript `NaN` obtained from
`"".charCodeAt(0)` or `Number(<non-digit>)`: far out of every coordinate
range used by the code, so every bounds comparison involving it fails,
as every comparison with `NaN` does. -/
def NAN_SENT : Int := -(2 ^ 40)

/-- `position.charCodeAt(0)` (`NaN` sentinel on the empty string). -/
def charCodeAt0 (s : String) : Int :=
  match s.toList with
  | [] => NAN_SENT
  | ch :: _ => (ch.toNat : Int)

/-- `Number(position.charAt(1))`: the empty string converts to `0`, a
digit to its value, anything else to `NaN`. -/
def numCharAt1 (s : String) : Int :=
  match s.toList.drop 1 with
  | [] => 0
  | ch :: _ => if 48 ≤ ch.toNat ∧ ch.toNat ≤ 57 then ((ch.toNat : Int) - 48) else NAN_SENT

/-- Row/column coordinates (`Coordinates` type of the interfaces). -/
structure Coordinates where
  row : Int
  col : Int
deriving DecidableEq, Repr

/-- `positionToCoordinates` from `chess-basic-validation.ts`:
`row = BOARD_SIZE - 1 - (Number(position.charAt(1)) - 1)`,
`col = position.charCodeAt(0) - FILE_A_CODE`. -/
def positionToCoordinates (position : String) : Coordinates :=
  { row := BOARD_SIZE - 1 - (numCharAt1 position - 1)
    col := charCodeAt0 position - FILE_A_CODE }

/-- `coordinatesToPosition` from `chess-basic-validation.ts`
(file letter followed by the decimal rank `BOARD_SIZE - row`). -/
def coordinatesToPosition (row col : Int) : String :=
  String.singleton (Char.ofNat (FILE_A_CODE + col).toNat) ++ toString (BOARD_SIZE - row)

/-- `isValidCoordinates` from `chess-basic-validation.ts`. -/
def isValidCoordinates (row col : Int) : Bool :=
  0 ≤ row ∧ row < BOARD_SIZE ∧ 0 ≤ col ∧ col < BOARD_SIZE

/-- `getPieceAtPosition` from `chess-basic-validation.ts`. -/
def getPieceAtPosition (board : Board) (position : String) : Option ChessPiece :=
  let coords := positionToCoordinates position
  if isValidCoordinates coords.row coords.col then pieceAtRC board coords.row coords.col
  else none

/-- `getSquareAtPosition` from `chess-basic-validation.ts`. -/
def getSquareAtPosition (board : Board) (position : String) : Option ChessSquare :=
  let coords := positionToCoordinates position
  if isValidCoordinates coords.row coords.col then some (boardSq board coords.row coords.col)
  else none

/-- The per-axis step `sign(to - from)` of `isPathClear`. -/
def stepOf (fromV toV : Int) : Int :=
  if toV = fromV then 0 else if toV > fromV then 1 else -1

/-- The scanning loop of `isPathClear`: walk from the square after `from`
to `to` (exclusive), failing on any occupied square.  The fuel is the
number of remaining steps; all call sites pass aligned coordinates for
which `max |Δrow| |Δcol|` steps suffice exactly. -/
def pathClearAux (board : Board) (toRow toCol rowStep colStep : Int) :
    Nat → Int → Int → Bool
  | 0, _, _ => true
  | fuel + 1, r, c =>
    if r = toRow ∧ c = toCol then true
    else if (pieceAtRC board r c).isSome then false
    else pathClearAux board toRow toCol rowStep colStep fuel (r + rowStep) (c + colStep)

/-- `isPathClear` from `chess-basic-validation.ts`: every square strictly
between `from` and `to` (walking one step per axis toward `to`) is empty. -/
def isPathClear (board : Board) (fromRow fromCol toRow toCol : Int) : Bool :=
  let rowStep := stepOf fromRow toRow
  let colStep := stepOf fromCol toCol
  pathClearAux board toRow toCol rowStep colStep
    (max (toRow - fromRow).natAbs (toCol - fromCol).natAbs)
    (fromRow + rowStep) (fromCol + colStep)

/-- `isValidPawnMoveInternal` from `chess-basic-validation.ts`. -/
def isValidPawnMoveInternal (board : Board) (piece : ChessPiece)
    (fromRow fromCol toRow toCol : Int) : Bool :=
  let direction : Int := if piece.color = PieceColor.white then -1 else 1
  let startRow : Int := if piece.color = PieceColor.white then BOARD_SIZE - 2 else 1
  let rowDiff := toRow - fromRow
  let colDiff := toCol - fromCol
  let isCapture := (pieceAtRC board toRow toCol).isSome
  if isCapture then
    colDiff.natAbs = 1 ∧ rowDiff = direction
  else if colDiff = 0 ∧ rowDiff = direction then
    true
  else if colDiff = 0 ∧ rowDiff = 2 * direction ∧ fromRow = startRow then
    (pieceAtRC board (fromRow + direction) fromCol).isNone
  else
    false

/-- `isValidRookMoveInternal` from `chess-basic-validation.ts`. -/
def isValidRookMoveInternal (board : Board) (fromRow fromCol toRow toCol : Int) : Bool :=
  if (fromRow = toRow ∧ fromCol ≠ toCol) ∨ (fromCol = toCol ∧ fromRow ≠ toRow) then
    isPathClear board fromRow fromCol toRow toCol
  else false

/-- `isValidKnightMoveInternal` from `chess-basic-validation.ts`. -/
def isValidKnightMoveInternal (fromRow fromCol toRow toCol : Int) : Bool :=
  let rowDiff := (toRow - fromRow).natAbs
  let colDiff := (toCol - fromCol).natAbs
  (rowDiff = 2 ∧ colDiff = 1) ∨ (rowDiff = 1 ∧ colDiff = 2)

/-- `isValidBishopMoveInternal` from `chess-basic-validation.ts`. -/
def isValidBishopMoveInternal (board : Board) (fromRow fromCol toRow toCol : Int) : Bool :=
  let rowDiff := (toRow - fromRow).natAbs
  let colDiff := (toCol - fromCol).natAbs
  if rowDiff = colDiff ∧ rowDiff > 0 then
    isPathClear board fromRow fromCol toRow toCol
  else false

/-- `isValidQueenMoveInternal` from `chess-basic-validation.ts`. -/
def isValidQueenMoveInternal (board : Board) (fromRow fromCol toRow toCol : Int) : Bool :=
  isValidRookMoveInternal board fromRow fromCol toRow toCol ||
    isValidBishopMoveInternal board fromRow fromCol toRow toCol

/-- `isValidKingMoveInternal` from `chess-basic-validation.ts`
(one square in any direction; castling is not part of this module). -/
def isValidKingMoveInternal (fromRow fromCol toRow toCol : Int) : Bool :=
  let rowDiff := (toRow - fromRow).natAbs
  let colDiff := (toCol - fromCol).natAbs
  rowDiff ≤ 1 ∧ colDiff ≤ 1 ∧ (rowDiff > 0 ∨ colDiff > 0)

/-- `isValidMoveByRules` from `chess-basic-validation.ts` (dispatch on
the piece type). -/
def isValidMoveByRules (board : Board) (piece : ChessPiece)
    (fromRow fromCol toRow toCol : Int) : Bool :=
  match piece.type with
  | PieceType.pawn => isValidPawnMoveInternal board piece fromRow fromCol toRow toCol
  | PieceType.rook => isValidRookMoveInternal board fromRow fromCol toRow toCol
  | PieceType.knight => isValidKnightMoveInternal fromRow fromCol toRow toCol
  | PieceType.bishop => isValidBishopMoveInternal board fromRow fromCol toRow toCol
  | PieceType.queen => isValidQueenMoveInternal board fromRow fromCol toRow toCol
  | PieceType.king => isValidKingMoveInternal fromRow fromCol toRow toCol

/-- `isValidMove` from `chess-basic-validation.ts`: bounds check on the
destination, reject null moves and same-color captures, then dispatch to
the per-piece shape rules.  This is the composed per-piece legality
predicate used by the service, the advanced rules and the AI worker. -/
def isValidMove (board : Board) (piece : ChessPiece)
    (fromRow fromCol toRow toCol : Int) : Bool :=
  if ¬ isValidCoordinates toRow toCol then false
  else if fromRow = toRow ∧ fromCol = toCol then false
  else
    match pieceAtRC board toRow toCol with
    | some targetPiece =>
      if targetPiece.color = piece.color then false
      else isValidMoveByRules board piece fromRow fromCol toRow toCol
    | none => isValidMoveByRules board piece fromRow fromCol toRow toCol

end BasicValidation

/-- The row-major list of the 8 coordinate values `0,…,7`. -/
def coordList : List Int := [0, 1, 2, 3, 4, 5, 6, 7]

/-- All 64 `(row, col)` pairs in row-major order, the iteration order of
every `for (row) for (col)` double loop of the code. -/
def allRC : List (Int × Int) :=
  coordList.flatMap (fun r => coordList.map (fun c => (r, c)))

/-- The integers `lo, lo+1, …, hi-1`: the index sequence of a
`for (i = lo; i < hi; i++)` loop. -/
def intRangeEx (lo hi : Int) : List Int :=
  (List.range (hi - lo).toNat).map (fun i : Nat => lo + (i : Int))

namespace CoreUtils

open BasicValidation

/-- `deepCloneBoard` from `chess-core-utils.ts` (structural copy of every
square and piece). -/
def deepCloneBoard (board : Board) : Board :=
  board.map (fun row => row.map (fun square =>
    { position := square.position, color := square.color,
      piece := square.piece.map (fun p =>
        { id := p.id, type := p.type, color := p.color,
          position := p.position, hasMoved := p.hasMoved }) }))

/-- A structural copy is the same board value. -/
theorem deepCloneBoard_eq (board : Board) : deepCloneBoard board = board := by
  unfold deepCloneBoard
  conv_rhs => rw [← List.map_id board]
  refine List.map_congr_left (fun row _ => ?_)
  conv_rhs => rw [← List.map_id row]
  refine List.map_congr_left (fun sq _ => ?_)
  cases sq with
  | mk p c pc => cases pc <;> rfl

/-- `getAllPiecesForColor` from `chess-core-utils.ts`: the positions of
all pieces of a color, in row-major board order. -/
def getAllPiecesForColor (board : Board) (color : PieceColor) : List String :=
  (board.map (fun row => row.filterMap (fun square =>
    match square.piece with
    | some p => if p.color = color then some square.position else none
    | none => none))).flatten

/-- `PIECE_VALUES` from `helpers/interfaces.ts`. -/
def PIECE_VALUES : PieceType → ℚ
  | PieceType.pawn => 1
  | PieceType.knight => 3
  | PieceType.bishop => 3
  | PieceType.rook => 5
  | PieceType.queen => 9
  | PieceType.king => 100

/-- `getPieceValue` from `chess-core-utils.ts` (`PIECE_VALUES[type] || 0`;
the table is total, so the `|| 0` fallback is never taken). -/
def getPieceValue (type : PieceType) : ℚ :=
  PIECE_VALUES type

/-- The board produced by the clone-then-overwrite simulation used by the
advanced rules (`newBoard[target].piece = piece; newBoard[from].piece =
null`), which moves the piece object unchanged. -/
def movedClone (board : Board) (piece : ChessPiece) (fromRow fromCol toRow toCol : Int) :
    Board :=
  setPieceRC (setPieceRC (deepCloneBoard board) toRow toCol (some piece)) fromRow fromCol none

/-- `simulateMove` from `chess-core-utils.ts`: clone, move the piece to
`to` rewriting its `position` and setting `hasMoved: true`, empty `from`. -/
def simulateMove (board : Board) (fromP toP : String) : Board :=
  let newBoard := deepCloneBoard board
  let fromCoords := positionToCoordinates fromP
  let toCoords := positionToCoordinates toP
  match pieceAtRC newBoard fromCoords.row fromCoords.col with
  | none => newBoard
  | some piece =>
    setPieceRC
      (setPieceRC newBoard toCoords.row toCoords.col
        (some { piece with position := toP, hasMoved := some true }))
      fromCoords.row fromCoords.col none

/-- `findKings` from `chess-core-utils.ts`: which kings are present. -/
def findKings (board : Board) : Bool × Bool :=
  (allRC.any (fun rc =>
      match pieceAtRC board rc.1 rc.2 with
      | some p => p.type = PieceType.king ∧ p.color = PieceColor.white
      | none => false),
   allRC.any (fun rc =>
      match pieceAtRC board rc.1 rc.2 with
      | some p => p.type = PieceType.king ∧ p.color = PieceColor.black
      | none => false))

/-- `hasBoardChanged` from `chess-core-utils.ts` (the variant re-exported
through `chess-utils.ts` and used by the service's board-diff effect):
two boards differ when some square's occupant differs in identity or in
its recorded `position` field. -/
def hasBoardChanged (board1 board2 : Board) : Bool :=
  allRC.any (fun rc =>
    match pieceAtRC board1 rc.1 rc.2, pieceAtRC board2 rc.1 rc.2 with
    | none, none => false
    | some _, none => true
    | none, some _ => true
    | some p1, some p2 => p1.id ≠ p2.id ∨ p1.position ≠ p2.position)

end CoreUtils

namespace AdvancedRules

open BasicValidation CoreUtils

/-- The king-locating double loop (with `break`) of `isKingInCheck` in
`chess-advanced-rules.ts`: the first square in row-major order holding
the king of the given color. -/
def findKingRC (board : Board) (kingColor : PieceColor) : Option (Int × Int) :=
  allRC.find? (fun rc =>
    match pieceAtRC board rc.1 rc.2 with
    | some p => p.type = PieceType.king ∧ p.color = kingColor
    | none => false)

/-- `isKingInCheck` from `chess-advanced-rules.ts`: some enemy piece has
a rule-valid move onto the king's square (`false` when there is no king). -/
def isKingInCheck (board : Board) (kingColor : PieceColor) : Bool :=
  match findKingRC board kingColor with
  | none => false
  | some kingPos =>
    allRC.any (fun rc =>
      match pieceAtRC board rc.1 rc.2 with
      | some p =>
        p.color = oppColor kingColor &&
          isValidMove board p rc.1 rc.2 kingPos.1 kingPos.2
      | none => false)

/-- The escape-move scan shared verbatim by `isCheckmate` and
`isStalemate` in `chess-advanced-rules.ts`: some piece of the color has a
rule-valid move whose clone-simulation leaves its king out of check. -/
def hasEscapeMove (board : Board) (color : PieceColor) : Bool :=
  allRC.any (fun rc =>
    match pieceAtRC board rc.1 rc.2 with
    | some piece =>
      piece.color = color &&
        allRC.any (fun target =>
          isValidMove board piece rc.1 rc.2 target.1 target.2 &&
            !(isKingInCheck (movedClone board piece rc.1 rc.2 target.1 target.2) color))
    | none => false)

/-- `isCheckmate` from `chess-advanced-rules.ts`. -/
def isCheckmate (board : Board) (kingColor : PieceColor) : Bool :=
  isKingInCheck board kingColor && !(hasEscapeMove board kingColor)

/-- `isStalemate` from `chess-advanced-rules.ts`. -/
def isStalemate (board : Board) (playerColor : PieceColor) : Bool :=
  !(isKingInCheck board playerColor) && !(hasEscapeMove board playerColor)

/-- `isLegalMove` from `chess-advanced-rules.ts`: rule-valid and, after
simulating the move on a cloned board, the mover's own king is not in
check.  This is the simulate-then-check legality notion of the spec. -/
def isLegalMove (board : Board) (piece : ChessPiece)
    (fromRow fromCol toRow toCol : Int) : Bool :=
  isValidMove board piece fromRow fromCol toRow toCol &&
    !(isKingInCheck (movedClone board piece fromRow fromCol toRow toCol) piece.color)

/-- `wouldCauseCheckmate` from `core/helpers/chess-advanced-rules.ts`:
apply the move on a clone and test checkmate for the opponent. -/
def wouldCauseCheckmate (board : Board) (piece : ChessPiece)
    (fromRow fromCol toRow toCol : Int) : Bool :=
  isCheckmate (movedClone board piece fromRow fromCol toRow toCol) (oppColor piece.color)

end AdvancedRules

namespace ChessUtilsRules

open BasicValidation

/-- `isValidRookMove` from the move-rule module of `chess-utils.ts`
(explicit `min`/`max` scanning loops). -/
def isValidRookMove (board : Board) (srcRow srcCol tgtRow tgtCol : Int) : Bool :=
  if ¬ isValidCoordinates tgtRow tgtCol then false
  else if srcRow = tgtRow ∧ srcCol = tgtCol then false
  else if srcRow ≠ tgtRow ∧ srcCol ≠ tgtCol then false
  else if srcRow = tgtRow then
    (intRangeEx (min srcCol tgtCol + 1) (max srcCol tgtCol)).all
      (fun c => (pieceAtRC board srcRow c).isNone)
  else
    (intRangeEx (min srcRow tgtRow + 1) (max srcRow tgtRow)).all
      (fun r => (pieceAtRC board r srcCol).isNone)

/-- `isValidKnightMove` from the move-rule module of `chess-utils.ts`. -/
def isValidKnightMove (srcRow srcCol tgtRow tgtCol : Int) : Bool :=
  if ¬ isValidCoordinates tgtRow tgtCol then false
  else if srcRow = tgtRow ∧ srcCol = tgtCol then false
  else
    let rowDiff := (srcRow - tgtRow).natAbs
    let colDiff := (srcCol - tgtCol).natAbs
    (rowDiff = 2 ∧ colDiff = 1) ∨ (rowDiff = 1 ∧ colDiff = 2)

/-- `isValidBishopMove` from the move-rule module of `chess-utils.ts`. -/
def isValidBishopMove (board : Board) (srcRow srcCol tgtRow tgtCol : Int) : Bool :=
  if ¬ isValidCoordinates tgtRow tgtCol then false
  else if srcRow = tgtRow ∧ srcCol = tgtCol then false
  else
    let rowDiff := (srcRow - tgtRow).natAbs
    let colDiff := (srcCol - tgtCol).natAbs
    if rowDiff ≠ colDiff then false
    else
      let rowStep : Int := if tgtRow > srcRow then 1 else -1
      let colStep : Int := if tgtCol > srcCol then 1 else -1
      (intRangeEx 1 (rowDiff : Int)).all (fun i =>
        (pieceAtRC board (srcRow + i * rowStep) (srcCol + i * colStep)).isNone)

/-- `isValidQueenMove` from the move-rule module of `chess-utils.ts`. -/
def isValidQueenMove (board : Board) (srcRow srcCol tgtRow tgtCol : Int) : Bool :=
  isValidRookMove board srcRow srcCol tgtRow tgtCol ||
    isValidBishopMove board srcRow srcCol tgtRow tgtCol

/-- `canPawnAttackSquare` from the move-rule module of `chess-utils.ts`:
pawns attack one column sideways, one row in their color's direction. -/
def canPawnAttackSquare (pawn : ChessPiece) (srcRow srcCol tgtRow tgtCol : Int) : Bool :=
  let direction : Int := if pawn.color = PieceColor.white then -1 else 1
  (srcCol - tgtCol).natAbs = 1 ∧ tgtRow - srcRow = direction

/-- `canPieceAttackSquare` from the move-rule module of `chess-utils.ts`
(kings attack by plain adjacency, never by castling). -/
def canPieceAttackSquare (board : Board) (piece : ChessPiece)
    (srcRow srcCol tgtRow tgtCol : Int) : Bool :=
  match piece.type with
  | PieceType.pawn => canPawnAttackSquare piece srcRow srcCol tgtRow tgtCol
  | PieceType.rook => isValidRookMove board srcRow srcCol tgtRow tgtCol
  | PieceType.knight => isValidKnightMove srcRow srcCol tgtRow tgtCol
  | PieceType.bishop => isValidBishopMove board srcRow srcCol tgtRow tgtCol
  | PieceType.queen => isValidQueenMove board srcRow srcCol tgtRow tgtCol
  | PieceType.king =>
    (srcRow - tgtRow).natAbs ≤ 1 ∧ (srcCol - tgtCol).natAbs ≤ 1

/-- `isSquareUnderAttack` from the move-rule module of `chess-utils.ts`:
some piece of the opposite color can attack the square. -/
def isSquareUnderAttack (board : Board) (targetRow targetCol : Int)
    (defenderColor : PieceColor) : Bool :=
  allRC.any (fun rc =>
    match pieceAtRC board rc.1 rc.2 with
    | some piece =>
      piece.color = oppColor defenderColor &&
        canPieceAttackSquare board piece rc.1 rc.2 targetRow targetCol
    | none => false)

/-- `isKingInCheck` from the move-rule module of `chess-utils.ts` (the
variant used by castling validation, built on `isSquareUnderAttack`). -/
def isKingInCheck (board : Board) (kingColor : PieceColor) : Bool :=
  match allRC.find? (fun rc =>
      match pieceAtRC board rc.1 rc.2 with
      | some p => p.type = PieceType.king ∧ p.color = kingColor
      | none => false) with
  | none => false
  | some kingPos => isSquareUnderAttack board kingPos.1 kingPos.2 kingColor

/-- `isValidCastlingMove` from the move-rule module of `chess-utils.ts`. -/
def isValidCastlingMove (board : Board) (king : ChessPiece)
    (srcRow srcCol tgtRow tgtCol : Int) : Bool :=
  if hasMovedB king then false
  else
    let isKingSideCastling := tgtCol > srcCol
    let rookCol : Int := if isKingSideCastling then 7 else 0
    match pieceAtRC board srcRow rookCol with
    | none => false
    | some rook =>
      if ¬ (rook.type = PieceType.rook ∧ rook.color = king.color ∧ ¬ hasMovedB rook) then
        false
      else if ¬ (intRangeEx (min srcCol rookCol + 1) (max srcCol rookCol)).all
          (fun col => (pieceAtRC board srcRow col).isNone) then
        false
      else if isKingInCheck board king.color then false
      else
        let stepCol := if isKingSideCastling then srcCol + 1 else srcCol - 1
        if isSquareUnderAttack board srcRow stepCol king.color then false
        else if isSquareUnderAttack board tgtRow tgtCol king.color then false
        else true

/-- `isValidKingMove` from the move-rule module of `chess-utils.ts`:
one square in any direction, or a two-column castling attempt. -/
def isValidKingMove (board : Board) (piece : ChessPiece)
    (srcRow srcCol tgtRow tgtCol : Int) : Bool :=
  if ¬ isValidCoordinates tgtRow tgtCol then false
  else if srcRow = tgtRow ∧ srcCol = tgtCol then false
  else
    let rowDiff := (srcRow - tgtRow).natAbs
    let colDiff := (srcCol - tgtCol).natAbs
    if rowDiff ≤ 1 ∧ colDiff ≤ 1 then true
    else if rowDiff = 0 ∧ colDiff = 2 then
      isValidCastlingMove board piece srcRow srcCol tgtRow tgtCol
    else false

end ChessUtilsRules

namespace Evaluation

open CoreUtils

/-- `board[row][col]` for the `Nat` indices of the evaluator's
`for (row = 0..7) for (col = 0..7)` loops. -/
def sqAtN (b : Board) (r c : Nat) : ChessSquare :=
  (b.getD r []).getD c oobSquare

/-- The occupant of `board[row][col]` for `Nat` indices. -/
def pieceAtN (b : Board) (r c : Nat) : Option ChessPiece :=
  (sqAtN b r c).piece

/-- `EVALUATION_WEIGHTS` from `core/helpers/chess-constants.ts`
(`MATERIAL 1.0, POSITION 0.01, DEVELOPMENT 0.5, KING_SAFETY 1.0,
PAWN_STRUCTURE 0.5`). -/
def W_MATERIAL : ℚ := 1
def W_POSITION : ℚ := 1 / 100
def W_DEVELOPMENT : ℚ := 1 / 2
def W_KING_SAFETY : ℚ := 1
def W_PAWN_STRUCTURE : ℚ := 1 / 2

/-- `CHESS_BONUSES` from `core/helpers/chess-constants.ts`
(`DOUBLED_PAWN_PENALTY 0.5, ISOLATED_PAWN_PENALTY 0.5, CASTLING_BONUS
1.0, CENTER_KING_PENALTY 2.0, DEVELOPMENT_BONUS 0.5`). -/
def DOUBLED_PAWN_PENALTY : ℚ := 1 / 2
def ISOLATED_PAWN_PENALTY : ℚ := 1 / 2
def CASTLING_BONUS : ℚ := 1
def CENTER_KING_PENALTY : ℚ := 2
def DEVELOPMENT_BONUS : ℚ := 1 / 2

/-- `PAWN_POSITION_TABLE` from `core/helpers/chess-constants.ts`. -/
def PAWN_POSITION_TABLE : List (List ℚ) :=
  [[0, 0, 0, 0, 0, 0, 0, 0],
   [50, 50, 50, 50, 50, 50, 50, 50],
   [10, 10, 20, 30, 30, 20, 10, 10],
   [5, 5, 10, 25, 25, 10, 5, 5],
   [0, 0, 0, 20, 20, 0, 0, 0],
   [5, -5, -10, 0, 0, -10, -5, 5],
   [5, 10, 10, -20, -20, 10, 10, 5],
   [0, 0, 0, 0, 0, 0, 0, 0]]

/-- `KNIGHT_POSITION_TABLE` from `core/helpers/chess-constants.ts`. -/
def KNIGHT_POSITION_TABLE : List (List ℚ) :=
  [[-50, -40, -30, -30, -30, -30, -40, -50],
   [-40, -20, 0, 0, 0, 0, -20, -40],
   [-30, 0, 10, 15, 15, 10, 0, -30],
   [-30, 5, 15, 20, 20, 15, 5, -30],
   [-30, 0, 15, 20, 20, 15, 0, -30],
   [-30, 5, 10, 15, 15, 10, 5, -30],
   [-40, -20, 0, 5, 5, 0, -20, -40],
   [-50, -40, -30, -30, -30, -30, -40, -50]]

/-- `BISHOP_POSITION_TABLE` from `core/helpers/chess-constants.ts`. -/
def BISHOP_POSITION_TABLE : List (List ℚ) :=
  [[-20, -10, -10, -10, -10, -10, -10, -20],
   [-10, 0, 0, 0, 0, 0, 0, -10],
   [-10, 0, 5, 10, 10, 5, 0, -10],
   [-10, 5, 5, 10, 10, 5, 5, -10],
   [-10, 0, 10, 10, 10, 10, 0, -10],
   [-10, 10, 10, 10, 10, 10, 10, -10],
   [-10, 5, 0, 0, 0, 0, 5, -10],
   [-20, -10, -10, -10, -10, -10, -10, -20]]

/-- `ROOK_POSITION_TABLE` from `core/helpers/chess-constants.ts`. -/
def ROOK_POSITION_TABLE : List (List ℚ) :=
  [[0, 0, 0, 0, 0, 0, 0, 0],
   [5, 10, 10, 10, 10, 10, 10, 5],
   [-5, 0, 0, 0, 0, 0, 0, -5],
   [-5, 0, 0, 0, 0, 0, 0, -5],
   [-5, 0, 0, 0, 0, 0, 0, -5],
   [-5, 0, 0, 0, 0, 0, 0, -5],
   [-5, 0, 0, 0, 0, 0, 0, -5],
   [0, 0, 0, 5, 5, 0, 0, 0]]

/-- `QUEEN_POSITION_TABLE` from `core/helpers/chess-constants.ts`. -/
def QUEEN_POSITION_TABLE : List (List ℚ) :=
  [[-20, -10, -10, -5, -5, -10, -10, -20],
   [-10, 0, 0, 0, 0, 0, 0, -10],
   [-10, 0, 5, 5, 5, 5, 0, -10],
   [-5, 0, 5, 5, 5, 5, 0, -5],
   [0, 0, 5, 5, 5, 5, 0, -5],
   [-10, 5, 5, 5, 5, 5, 0, -10],
   [-10, 0, 5, 0, 0, 0, 0, -10],
   [-20, -10, -10, -5, -5, -10, -10, -20]]

/-- `KING_POSITION_TABLE` from `core/helpers/chess-constants.ts`. -/
def KING_POSITION_TABLE : List (List ℚ) :=
  [[-30, -40, -40, -50, -50, -40, -40, -30],
   [-30, -40, -40, -50, -50, -40, -40, -30],
   [-30, -40, -40, -50, -50, -40, -40, -30],
   [-30, -40, -40, -50, -50, -40, -40, -30],
   [-20, -30, -30, -40, -40, -30, -30, -20],
   [-10, -20, -20, -20, -20, -20, -20, -10],
   [20, 20, 0, 0, 0, 0, 20, 20],
   [20, 30, 10, 0, 0, 10, 30, 20]]

/-- `POSITION_TABLES` from `core/helpers/chess-constants.ts`. -/
def POSITION_TABLES : PieceType → List (List ℚ)
  | PieceType.pawn => PAWN_POSITION_TABLE
  | PieceType.knight => KNIGHT_POSITION_TABLE
  | PieceType.bishop => BISHOP_POSITION_TABLE
  | PieceType.rook => ROOK_POSITION_TABLE
  | PieceType.queen => QUEEN_POSITION_TABLE
  | PieceType.king => KING_POSITION_TABLE

/-- Lookup `table[row][col]`. -/
def tableAt (t : List (List ℚ)) (row col : Nat) : ℚ :=
  (t.getD row []).getD col 0

/-- The sign multiplier of `evaluateBoard`
(`isWhite ? -1 : 1`: black positive, white negative). -/
def multiplier (isWhite : Bool) : ℚ :=
  if isWhite then -1 else 1

/-- `getPositionalValue` from `core/helpers/chess-evaluation.ts`: the
piece-square table value, with the table row mirrored for white. -/
def getPositionalValue (pieceType : PieceType) (row col : Nat) (isWhite : Bool) : ℚ :=
  let tableRow := if isWhite then 7 - row else row
  tableAt (POSITION_TABLES pieceType) tableRow col

/-- `getDevelopmentScore` from `core/helpers/chess-evaluation.ts`:
knights and bishops are penalized on their initial row, rewarded off it. -/
def getDevelopmentScore (piece : ChessPiece) (row : Nat) (isWhite : Bool) : ℚ :=
  if piece.type = PieceType.knight ∨ piece.type = PieceType.bishop then
    let initialRow : Nat := if isWhite then 7 else 0
    if row = initialRow then -DEVELOPMENT_BONUS else DEVELOPMENT_BONUS
  else 0

/-- `getKingSafetyScore` from `core/helpers/chess-evaluation.ts`:
penalize a centered king, reward a castled-corner king on the back row. -/
def getKingSafetyScore (piece : ChessPiece) (row col : Nat) (isWhite : Bool) : ℚ :=
  if piece.type ≠ PieceType.king then 0
  else
    (if 3 ≤ col ∧ col ≤ 4 then -CENTER_KING_PENALTY else 0) +
      (if (col = 6 ∨ col = 2) ∧ ((isWhite ∧ row = 7) ∨ (¬ isWhite ∧ row = 0)) then
        CASTLING_BONUS
      else 0)

/-- The doubled-pawn counting loop of `getPawnStructureScore`: friendly
pawns in the same column on a different row. -/
def doubledPawnCount (board : Board) (piece : ChessPiece) (row col : Nat) : ℚ :=
  ∑ r ∈ Finset.range 8,
    if r ≠ row ∧
        (∃ p, pieceAtN board r col = some p ∧
          p.type = PieceType.pawn ∧ p.color = piece.color) then
      (1 : ℚ)
    else 0

/-- One adjacent-column probe of the isolated-pawn loop of
`getPawnStructureScore` (out-of-board columns are skipped). -/
def hasFriendlyPawnInCol (board : Board) (piece : ChessPiece) (c : Int) : Bool :=
  if 0 ≤ c ∧ c < 8 then
    (List.range 8).any (fun r =>
      match pieceAtN board r c.toNat with
      | some p => p.type = PieceType.pawn ∧ p.color = piece.color
      | none => false)
  else false

/-- `getPawnStructureScore` from `core/helpers/chess-evaluation.ts`:
penalties for doubled and isolated pawns. -/
def getPawnStructureScore (board : Board) (piece : ChessPiece) (row col : Nat) : ℚ :=
  if piece.type ≠ PieceType.pawn then 0
  else
    -(doubledPawnCount board piece row col * DOUBLED_PAWN_PENALTY) +
      (if ¬ hasFriendlyPawnInCol board piece ((col : Int) - 1) ∧
          ¬ hasFriendlyPawnInCol board piece ((col : Int) + 1) then
        -ISOLATED_PAWN_PENALTY
      else 0)

/-- The full contribution of one square to `evaluateBoard` (the body of
its double loop; the five accumulators of the source are recovered as
the five summands, which is exact in `ℚ`). -/
def squareScore (board : Board) (r c : Nat) : ℚ :=
  match pieceAtN board r c with
  | none => 0
  | some piece =>
    let isWhite := piece.color = PieceColor.white
    let m := multiplier isWhite
    getPieceValue piece.type * m * W_MATERIAL +
      getPositionalValue piece.type r c isWhite * m * W_POSITION +
      getDevelopmentScore piece r isWhite * m * W_DEVELOPMENT +
      getKingSafetyScore piece r c isWhite * m * W_KING_SAFETY +
      getPawnStructureScore board piece r c * m * W_PAWN_STRUCTURE

/-- `evaluateBoard` from `core/helpers/chess-evaluation.ts`: the signed
position score, positive favoring black and negative favoring white. -/
def evaluateBoard (board : Board) : ℚ :=
  ∑ r ∈ Finset.range 8, ∑ c ∈ Finset.range 8, squareScore board r c

end Evaluation

namespace AppService

open BasicValidation CoreUtils AdvancedRules

/-- `MoveResult` from `helpers/interfaces.ts`. -/
structure MoveResult where
  success : Bool
  captured : Option ChessPiece
  error : Option String
  moveType : Option String
deriving DecidableEq, Repr

/-- A failed `MoveResult` (`{ success: false, error }`). -/
def failure (err : String) : MoveResult :=
  { success := false, captured := none, error := some err, moveType := none }

/-- `MoveData` from `helpers/interfaces.ts`. -/
structure MoveData where
  sourcePos : String
  targetPos : String
  movedPiece : Option ChessPiece
  capturedPiece : Option ChessPiece
deriving DecidableEq, Repr

/-- The game-state signals of `AppService` (`services/app.service.ts`)
that the game logic reads or writes, plus the private `previousBoard`
field.  UI-only signals (animations, theme, victory modal) and the
persisted score history are omitted; `checkmateConfirmModal` is kept as
its `show`/`fromPos`/`toPos` data (its callbacks are closures). -/
structure AppState where
  board : Board
  currentTurn : PieceColor
  moveHistory : List String
  totalMovements : Nat
  whiteCaptures : Nat
  blackCaptures : Nat
  whiteInCheck : Bool
  blackInCheck : Bool
  winnerColor : Option PieceColor
  gameOver : Bool
  gameInitialized : Bool
  modalShow : Bool
  modalFrom : String
  modalTo : String
  prevBoard : Board
deriving DecidableEq, Repr

/-- `PIECE_SYMBOLS` from `helpers/interfaces.ts`. -/
def PIECE_SYMBOLS : PieceType → String
  | PieceType.king => "K"
  | PieceType.queen => "Q"
  | PieceType.rook => "R"
  | PieceType.bishop => "B"
  | PieceType.knight => "N"
  | PieceType.pawn => ""

/-- The string value of the `PieceType` enum. -/
def pieceTypeStr : PieceType → String
  | PieceType.king => "king"
  | PieceType.queen => "queen"
  | PieceType.rook => "rook"
  | PieceType.bishop => "bishop"
  | PieceType.knight => "knight"
  | PieceType.pawn => "pawn"

/-- The string value of the `PieceColor` enum. -/
def pieceColorStr : PieceColor → String
  | PieceColor.white => "white"
  | PieceColor.black => "black"

/-- The Spanish display constants `PIECE_NAMES_ES`, `PIECE_ICONS_WHITE`
and `PIECE_ICONS_BLACK` referenced by `generateIntuitiveMoveNotation` in
`chess-utils.ts`.  Modelled from the spec: they live in
`helpers/interfaces.ts`, whose display section is not in the source
snapshot, so they are kept as an abstract parameter; every statement
about the produced strings that matters below holds for all values. -/
structure DisplayCfg where
  namesES : PieceType → String
  iconsWhite : PieceType → String
  iconsBlack : PieceType → String

/-- Modelled from the spec: a concrete placeholder instantiation of the
missing display constants (used only to close concrete runs; the facts
proved about move-history strings are independent of these values). -/
def placeholderCfg : DisplayCfg :=
  { namesES := pieceTypeStr, iconsWhite := PIECE_SYMBOLS, iconsBlack := PIECE_SYMBOLS }

/-- `generateMoveNotation` from `chess-utils.ts`:
`<pieceSymbol><from><x if capture><to>`. -/
def generateMoveText (piece : ChessPiece) (sourcePos targetPos : String)
    (capturedPiece : Option ChessPiece) : String :=
  PIECE_SYMBOLS piece.type ++ sourcePos ++
    (if capturedPiece.isSome then "x" else "") ++ targetPos

/-- `generateIntuitiveMoveNotation` from `chess-utils.ts`:
`<icon> <name> <from> <captura|mueve a> <to>[ (<icon> <name>)]`. -/
def generateIntuitiveMoveText (cfg : DisplayCfg) (piece : ChessPiece)
    (sourcePos targetPos : String) (capturedPiece : Option ChessPiece) : String :=
  let pieceName := cfg.namesES piece.type
  let pieceIcon :=
    if piece.color = PieceColor.white then cfg.iconsWhite piece.type
    else cfg.iconsBlack piece.type
  let action := if capturedPiece.isSome then "captura" else "mueve a"
  let capturedInfo :=
    match capturedPiece with
    | some cp =>
      " (" ++ (if cp.color = PieceColor.white then cfg.iconsWhite cp.type
               else cfg.iconsBlack cp.type) ++ " " ++ cfg.namesES cp.type ++ ")"
    | none => ""
  pieceIcon ++ " " ++ pieceName ++ " " ++ sourcePos ++ " " ++ action ++ " " ++
    targetPos ++ capturedInfo

/-- `isGameActive` from `app.service.ts`. -/
def isGameActive (s : AppState) : Bool :=
  s.gameInitialized && !s.gameOver

/-- `validateTurn` from `app.service.ts` (`none` = valid). -/
def validateTurn (s : AppState) (fromPos : String) : Option String :=
  match getPieceAtPosition s.board fromPos with
  | none => some "No hay pieza en esa posición"
  | some piece =>
    if piece.color ≠ s.currentTurn then
      some ("Es el turno de las " ++
        (if s.currentTurn = PieceColor.white then "blancas" else "negras"))
    else none

/-- `isValidMoveComplete` from `app.service.ts` (rule check via the
consolidated `isValidMove`). -/
def isValidMoveComplete (board : Board) (fromPos toPos : String) : Bool :=
  let fromCoords := positionToCoordinates fromPos
  let toCoords := positionToCoordinates toPos
  match getPieceAtPosition board fromPos with
  | none => false
  | some piece =>
    isValidMove board piece fromCoords.row fromCoords.col toCoords.row toCoords.col

/-- One iteration of the square-diffing double loop of `detectMove`
(state: the `MoveData` so far and the `foundSource` / `foundTarget`
flags; iterations after both flags are set are no-ops, like the loop's
exit condition). -/
def detectMoveStep (previousBoard currentBoard : Board)
    (acc : MoveData × Bool × Bool) (rc : Int × Int) : MoveData × Bool × Bool :=
  let md := acc.1
  let foundSource := acc.2.1
  let foundTarget := acc.2.2
  if foundSource ∧ foundTarget then acc
  else
    let prevPiece := pieceAtRC previousBoard rc.1 rc.2
    let currentPiece := pieceAtRC currentBoard rc.1 rc.2
    let srcUpd :=
      if ¬ foundSource ∧ prevPiece.isSome ∧ currentPiece.isNone then
        ({ md with sourcePos := (boardSq previousBoard rc.1 rc.2).position
                   movedPiece := prevPiece }, true)
      else (md, foundSource)
    let md1 := srcUpd.1
    let foundSource1 := srcUpd.2
    if ¬ foundTarget then
      if prevPiece.isNone ∧ currentPiece.isSome then
        ({ md1 with targetPos := (boardSq currentBoard rc.1 rc.2).position },
          foundSource1, true)
      else
        match prevPiece, currentPiece with
        | some p1, some p2 =>
          if p1.id ≠ p2.id then
            ({ md1 with targetPos := (boardSq currentBoard rc.1 rc.2).position
                        capturedPiece := some p1 }, foundSource1, true)
          else (md1, foundSource1, foundTarget)
        | _, _ => (md1, foundSource1, foundTarget)
    else (md1, foundSource1, foundTarget)

/-- `detectMove` from `app.service.ts`: reconstruct the last move by
diffing the previous and current boards in row-major order. -/
def detectMove (previousBoard currentBoard : Board) : MoveData :=
  (allRC.foldl (detectMoveStep previousBoard currentBoard)
    ({ sourcePos := "", targetPos := "", movedPiece := none, capturedPiece := none },
      false, false)).1

/-- `updateCaptures` from `app.service.ts`. -/
def updateCaptures (s : AppState) (capturedColor : PieceColor) : AppState :=
  if capturedColor = PieceColor.white then
    { s with whiteCaptures := s.whiteCaptures + 1 }
  else
    { s with blackCaptures := s.blackCaptures + 1 }

/-- `updateGameStateAfterMove` from `app.service.ts`: bump capture
counters, flip the turn, count the move, append the intuitive notation
to the move history.  (The delegated AI cache clearing has no modelled
state.) -/
def updateGameStateAfterMove (cfg : DisplayCfg) (s : AppState) (moveData : MoveData) :
    AppState :=
  match moveData.movedPiece with
  | none => s
  | some movedPiece =>
    if moveData.sourcePos = "" ∨ moveData.targetPos = "" then s
    else
      let s1 :=
        match moveData.capturedPiece with
        | some cp => updateCaptures s cp.color
        | none => s
      let nextTurn := oppColor movedPiece.color
      { s1 with
        currentTurn := nextTurn
        totalMovements := s1.totalMovements + 1
        moveHistory := s1.moveHistory ++
          [generateIntuitiveMoveText cfg movedPiece moveData.sourcePos
            moveData.targetPos moveData.capturedPiece] }

/-- `processMove` from `app.service.ts`. -/
def processMove (cfg : DisplayCfg) (previousBoard currentBoard : Board)
    (s : AppState) : AppState :=
  let moveData := detectMove previousBoard currentBoard
  if moveData.movedPiece.isSome then updateGameStateAfterMove cfg s moveData else s

/-- `endGame` from `app.service.ts` (victory-modal and score-history
bookkeeping omitted: no claim mentions them). -/
def endGame (s : AppState) (winner : Option PieceColor) : AppState :=
  { s with gameOver := true, winnerColor := winner }

/-- `checkGameStatus` from `app.service.ts`: a missing king ends the
game at once; otherwise refresh the check flags and test
checkmate / stalemate. -/
def checkGameStatus (s : AppState) : AppState :=
  let currentBoard := s.board
  let kings := findKings currentBoard
  if kings.1 = false then endGame s (some PieceColor.black)
  else if kings.2 = false then endGame s (some PieceColor.white)
  else
    let w := isKingInCheck currentBoard PieceColor.white
    let bk := isKingInCheck currentBoard PieceColor.black
    let s1 := { s with whiteInCheck := w, blackInCheck := bk }
    if w && isCheckmate currentBoard PieceColor.white then
      endGame s1 (some PieceColor.black)
    else if bk && isCheckmate currentBoard PieceColor.black then
      endGame s1 (some PieceColor.white)
    else if isStalemate currentBoard s1.currentTurn then endGame s1 none
    else s1

/-- The signal effects that fire after `board.set(newBoard)`, in their
creation order: first the status-check effect, then the board-diff
effect (`processMove`, refresh `previousBoard`, `checkGameStatus`).
The asynchronous AI-scheduling effect is outside the synchronous model. -/
def afterBoardSet (cfg : DisplayCfg) (s : AppState) : AppState :=
  let s1 := checkGameStatus s
  if ¬ s1.gameInitialized ∨ s1.board = ([] : Board) then s1
  else if s1.prevBoard = ([] : Board) then
    { s1 with prevBoard := deepCloneBoard s1.board }
  else if hasBoardChanged s1.prevBoard s1.board then
    let s2 := processMove cfg s1.prevBoard s1.board s1
    checkGameStatus { s2 with prevBoard := deepCloneBoard s2.board }
  else s1

/-- `performMoveWithResult` from `app.service.ts`: clone the board, move
the piece (rewriting its `position`, not `hasMoved`), clear the origin,
publish the new board (which runs the effects), and report the capture. -/
def performMoveWithResult (cfg : DisplayCfg) (s : AppState) (fromPos toPos : String)
    (capturedPiece : Option ChessPiece) : MoveResult × AppState :=
  let newBoard := deepCloneBoard s.board
  match getSquareAtPosition newBoard fromPos, getSquareAtPosition newBoard toPos with
  | none, _ => (failure "Posición inválida", s)
  | some _, none => (failure "Posición inválida", s)
  | some fromSquare, some _ =>
    match fromSquare.piece with
    | none => (failure "No hay pieza en origen", s)
    | some p =>
      let targetPiece := capturedPiece
      let fromCoords := positionToCoordinates fromPos
      let toCoords := positionToCoordinates toPos
      let b1 := setPieceRC newBoard toCoords.row toCoords.col
        (some { p with position := toPos })
      let b2 := setPieceRC b1 fromCoords.row fromCoords.col none
      let sFx := afterBoardSet cfg { s with board := b2 }
      ({ success := true, captured := targetPiece, error := none,
         moveType := some (if targetPiece.isSome then "capture" else "normal") }, sFx)

/-- `validateMoveInternal` from `app.service.ts`: active-game check,
turn check, rule check, then either report or execute. -/
def validateMoveInternal (cfg : DisplayCfg) (s : AppState) (fromPos toPos : String)
    (execute : Bool) : MoveResult × AppState :=
  if ¬ isGameActive s then (failure "Juego no activo", s)
  else
    match validateTurn s fromPos with
    | some err => (failure err, s)
    | none =>
      let board := s.board
      if ¬ isValidMoveComplete board fromPos toPos then
        let pieceName :=
          match getPieceAtPosition board fromPos with
          | some piece => pieceTypeStr piece.type ++ " " ++ pieceColorStr piece.color
          | none => "pieza"
        (failure ("El " ++ pieceName ++ " no puede moverse a esa posición"), s)
      else
        let targetPiece := getPieceAtPosition board toPos
        if execute then performMoveWithResult cfg s fromPos toPos targetPiece
        else
          ({ success := true, captured := targetPiece, error := none,
             moveType := some (if targetPiece.isSome then "capture" else "normal") }, s)

/-- `validateMove` from `app.service.ts` (the side-effect-free check). -/
def validateMove (cfg : DisplayCfg) (s : AppState) (fromPos toPos : String) :
    MoveResult × AppState :=
  validateMoveInternal cfg s fromPos toPos false

/-- `executeMove` from `app.service.ts`. -/
def executeMove (cfg : DisplayCfg) (s : AppState) (fromPos toPos : String) :
    MoveResult × AppState :=
  validateMoveInternal cfg s fromPos toPos true

/-- `executeAiMove` from `app.service.ts`: the AI path executes directly,
with no danger gating. -/
def executeAiMove (cfg : DisplayCfg) (s : AppState) (fromPos toPos : String) :
    MoveResult × AppState :=
  executeMove cfg s fromPos toPos

/-- `simulatePlayerMove` from `app.service.ts`: validate without
executing, then replay the move on a clone (piece object unchanged). -/
def simulatePlayerMove (cfg : DisplayCfg) (s : AppState) (fromPos toPos : String) :
    Option Board :=
  if (validateMoveInternal cfg s fromPos toPos false).1.success = false then none
  else
    let board := deepCloneBoard s.board
    let fromCoords := positionToCoordinates fromPos
    let toCoords := positionToCoordinates toPos
    match pieceAtRC board fromCoords.row fromCoords.col with
    | none => none
    | some piece =>
      some (setPieceRC (setPieceRC board toCoords.row toCoords.col (some piece))
        fromCoords.row fromCoords.col none)

/-- `canBlackMakeCheckmate` from `app.service.ts`: some rule-valid black
move on the given board would checkmate white. -/
def canBlackMakeCheckmate (board : Board) : Bool :=
  allRC.any (fun rc =>
    match pieceAtRC board rc.1 rc.2 with
    | some piece =>
      piece.color = PieceColor.black &&
        allRC.any (fun target =>
          isValidMove board piece rc.1 rc.2 target.1 target.2 &&
            wouldCauseCheckmate board piece rc.1 rc.2 target.1 target.2)
    | none => false)

/-- `makeMove` from `app.service.ts`: white (human) moves are first
simulated and gated behind a confirmation modal when black could answer
with an immediate checkmate; black / AI moves execute directly. -/
def makeMove (cfg : DisplayCfg) (s : AppState) (fromPos toPos : String) :
    MoveResult × AppState :=
  match getPieceAtPosition s.board fromPos with
  | some piece =>
    if piece.color = PieceColor.white then
      match simulatePlayerMove cfg s fromPos toPos with
      | none => (failure "Movimiento inválido", s)
      | some simulatedBoard =>
        if canBlackMakeCheckmate simulatedBoard then
          (failure "Esperando confirmación - movimiento peligroso",
            { s with modalShow := true, modalFrom := fromPos, modalTo := toPos })
        else executeMove cfg s fromPos toPos
    else executeMove cfg s fromPos toPos
  | none => executeMove cfg s fromPos toPos

/-- `createEmptyBoard` from `chess-utils.ts`. -/
def createEmptyBoard : Board :=
  (List.range 8).map (fun row =>
    (List.range 8).map (fun col =>
      { position := coordinatesToPosition (row : Int) (col : Int)
        color := if (row + col) % 2 = 0 then SquareColor.light else SquareColor.dark
        piece := none }))

/-- `INITIAL_PIECE_ORDER` from `chess-utils.ts`. -/
def INITIAL_PIECE_ORDER : List PieceType :=
  [PieceType.rook, PieceType.knight, PieceType.bishop, PieceType.queen,
   PieceType.king, PieceType.bishop, PieceType.knight, PieceType.rook]

/-- `placePiece` from `chess-utils.ts`. -/
def placePiece (board : Board) (position : String) (piece : ChessPiece) : Board :=
  match getSquareAtPosition board position with
  | none => board
  | some _ =>
    let coords := positionToCoordinates position
    setPieceRC board coords.row coords.col (some piece)

/-- The file letter of a column (`String.fromCharCode(97 + col)`). -/
def fileOf (col : Nat) : String :=
  String.singleton (Char.ofNat (97 + col))

/-- `setupInitialPosition` from `app.service.ts`: standard back ranks
and pawn rows, with the documented piece ids and no `hasMoved` field. -/
def setupInitialPosition (board : Board) : Board :=
  (List.range 8).foldl (fun b col =>
    let file := fileOf col
    let b1 := placePiece b (file ++ "1")
      { id := (col : Int) + 1, type := INITIAL_PIECE_ORDER.getD col PieceType.pawn,
        color := PieceColor.white, position := file ++ "1", hasMoved := none }
    let b2 := placePiece b1 (file ++ "2")
      { id := 9 + (col : Int), type := PieceType.pawn,
        color := PieceColor.white, position := file ++ "2", hasMoved := none }
    let b3 := placePiece b2 (file ++ "8")
      { id := 17 + (col : Int), type := INITIAL_PIECE_ORDER.getD col PieceType.pawn,
        color := PieceColor.black, position := file ++ "8", hasMoved := none }
    placePiece b3 (file ++ "7")
      { id := 25 + (col : Int), type := PieceType.pawn,
        color := PieceColor.black, position := file ++ "7", hasMoved := none })
    board

/-- `initializeGame` from `app.service.ts`: reset the state, build the
standard starting position, publish it (the status-check effect runs;
the diff effect sees an unchanged `previousBoard` and does nothing). -/
def initializeGame : AppState :=
  let newBoard := setupInitialPosition createEmptyBoard
  checkGameStatus
    { board := newBoard
      currentTurn := PieceColor.white
      moveHistory := []
      totalMovements := 0
      whiteCaptures := 0
      blackCaptures := 0
      whiteInCheck := false
      blackInCheck := false
      winnerColor := none
      gameOver := false
      gameInitialized := true
      modalShow := false
      modalFrom := ""
      modalTo := ""
      prevBoard := deepCloneBoard newBoard }

end AppService

namespace Worker

open BasicValidation CoreUtils Evaluation

/-- A JavaScript search score: a rational, or the `-Infinity` /
`+Infinity` sentinels used by alpha-beta search. -/
abbrev JSNum := WithBot (WithTop ℚ)

/-- `-Infinity`. -/
def NEG_INF : JSNum := ⊥

/-- `+Infinity`. -/
def POS_INF : JSNum := ⊤

/-- A finite score. -/
def finQ (q : ℚ) : JSNum := ((q : WithTop ℚ) : JSNum)

/-- `AiMove` from `helpers/interfaces.ts` (`from`/`to` are Lean keywords,
hence `fromP`/`toP`). -/
structure AiMove where
  fromP : String
  toP : String
  score : JSNum
deriving DecidableEq, Repr

/-- `AI_CONFIG.MAX_DEPTH` from `core/helpers/chess-constants.ts`. -/
def MAX_DEPTH : Nat := 5

/-- `AI_CONFIG.MAX_BRANCHING` from `core/helpers/chess-constants.ts`. -/
def MAX_BRANCHING : Nat := 20

/-- `AI_CONFIG.QUIESCENCE_DEPTH` from `core/helpers/chess-constants.ts`. -/
def QUIESCENCE_DEPTH : Nat := 4

/-- `getValidMovesForPiece` from `workers/ai.worker.ts` (the worker-pool
service's private copy in `worker-pool.service.ts` builds the same
target string `fromCharCode(97+col) + (8-row)` by hand): all rule-valid
target squares of the piece, in row-major target order. -/
def getValidMovesForPiece (board : Board) (position : String) : List String :=
  match getPieceAtPosition board position with
  | none => []
  | some piece =>
    let fromCoords := positionToCoordinates position
    allRC.filterMap (fun rc =>
      let targetPosition := coordinatesToPosition rc.1 rc.2
      if targetPosition = position then none
      else if isValidMove board piece fromCoords.row fromCoords.col rc.1 rc.2 then
        some targetPosition
      else none)

/-- The capture value a move is ordered by in `orderMoves`
(the captured piece's value, `0` for a quiet move). -/
def captureValue (board : Board) (m : AiMove) : ℚ :=
  match getPieceAtPosition board m.toP with
  | some target => getPieceValue target.type
  | none => 0

/-- Stable insertion step of the descending capture-value sort
(JavaScript `Array.prototype.sort` is stable). -/
def insertByCaptureDesc (board : Board) (m : AiMove) : List AiMove → List AiMove
  | [] => [m]
  | b :: l =>
    if captureValue board b > captureValue board m then
      b :: insertByCaptureDesc board m l
    else m :: b :: l

/-- The stable descending sort by capture value used by `orderMoves`. -/
def sortByCaptureDesc (board : Board) : List AiMove → List AiMove
  | [] => []
  | a :: l => insertByCaptureDesc board a (sortByCaptureDesc board l)

/-- `orderMoves` from `workers/ai.worker.ts`: sort by captured-piece
value descending (stable), keep the first `MAX_BRANCHING`. -/
def orderMoves (moves : List AiMove) (board : Board) : List AiMove :=
  (sortByCaptureDesc board moves).take MAX_BRANCHING

/-- The capture-move enumeration shared by `quiescenceSearch`. -/
def captureMovesFor (board : Board) (color : PieceColor) : List AiMove :=
  (getAllPiecesForColor board color).flatMap (fun piecePos =>
    (getValidMovesForPiece board piecePos).filterMap (fun targetPos =>
      match getPieceAtPosition board targetPos with
      | some target =>
        if target.color ≠ color then
          some { fromP := piecePos, toP := targetPos, score := finQ 0 }
        else none
      | none => none))

/-- `quiescenceSearch` from `workers/ai.worker.ts`: stand-pat cut-offs,
then capture moves only, alpha-beta pruned (the `break` is the `brk`
flag of the fold).  The source function itself reads neither the clock
nor the transposition table, so it is pure. -/
def quiescenceSearch (board : Board) (alpha beta : JSNum)
    (maximizingPlayer : Bool) : Nat → JSNum
  | 0 => finQ (evaluateBoard board)
  | depth + 1 =>
    let standPat := finQ (evaluateBoard board)
    let color := if maximizingPlayer then PieceColor.black else PieceColor.white
    if maximizingPlayer then
      if standPat ≥ beta then beta
      else
        let alpha1 := max alpha standPat
        let orderedCaptures := orderMoves (captureMovesFor board color) board
        (orderedCaptures.foldl (fun acc move =>
          let value := acc.1
          let a := acc.2.1
          let brk := acc.2.2
          if brk then acc
          else
            let newBoard := simulateMove board move.fromP move.toP
            let score := quiescenceSearch newBoard a beta false depth
            let value1 := max value score
            let a1 := max a score
            (value1, a1, decide (a1 ≥ beta)))
          (standPat, alpha1, false)).1
    else
      if standPat ≤ alpha then alpha
      else
        let beta1 := min beta standPat
        let orderedCaptures := orderMoves (captureMovesFor board color) board
        (orderedCaptures.foldl (fun acc move =>
          let value := acc.1
          let b := acc.2.1
          let brk := acc.2.2
          if brk then acc
          else
            let newBoard := simulateMove board move.fromP move.toP
            let score := quiescenceSearch newBoard alpha b true depth
            let value1 := min value score
            let b1 := min b score
            (value1, b1, decide (b1 ≤ alpha)))
          (standPat, beta1, false)).1

/-- The full-move enumeration of `minimaxAlphaBeta`. -/
def allMovesFor (board : Board) (color : PieceColor) : List AiMove :=
  (getAllPiecesForColor board color).flatMap (fun piecePos =>
    (getValidMovesForPiece board piecePos).map (fun targetPos =>
      { fromP := piecePos, toP := targetPos, score := finQ 0 }))

/-- The idealization of `minimaxAlphaBeta` from `workers/ai.worker.ts`
that the spec's partition-equivalence sentence presupposes: the wall-clock
timeout and the transposition table are dropped, so the score of a
position is the pure recursive alpha-beta value, independent of any state
shared across the moves of a batch.  The faithful stateful translation of
the source function is `minimaxAlphaBeta` below; this cache-free,
timeout-free reading is kept (under a distinct name) as the comparison
point for the amended C6 equivalence. -/
def minimaxIdeal (board : Board) (alpha beta : JSNum)
    (maximizingPlayer : Bool) : Nat → JSNum
  | 0 => quiescenceSearch board alpha beta maximizingPlayer QUIESCENCE_DEPTH
  | depth + 1 =>
    let color := if maximizingPlayer then PieceColor.black else PieceColor.white
    let moves := allMovesFor board color
    if moves.isEmpty then finQ (evaluateBoard board)
    else
      let orderedMoves := orderMoves moves board
      if maximizingPlayer then
        (orderedMoves.foldl (fun acc move =>
          let value := acc.1
          let a := acc.2.1
          let brk := acc.2.2
          if brk then acc
          else
            let newBoard := simulateMove board move.fromP move.toP
            let score := minimaxIdeal newBoard a beta false depth
            let value1 := max value score
            let a1 := max a score
            (value1, a1, decide (a1 ≥ beta)))
          (NEG_INF, alpha, false)).1
      else
        (orderedMoves.foldl (fun acc move =>
          let value := acc.1
          let b := acc.2.1
          let brk := acc.2.2
          if brk then acc
          else
            let newBoard := simulateMove board move.fromP move.toP
            let score := minimaxIdeal newBoard alpha b true depth
            let value1 := min value score
            let b1 := min b score
            (value1, b1, decide (b1 ≤ alpha)))
          (POS_INF, beta, false)).1

/-- The root score the idealized `evaluateMovesIdeal` assigns to one
candidate move. -/
def rootScoreIdeal (board : Board) (move : AiMove) : JSNum :=
  minimaxIdeal (simulateMove board move.fromP move.toP) NEG_INF POS_INF false
    (MAX_DEPTH - 1)

/-- Stable insertion step of the descending sort by score
(`(a, b) => b.score - a.score`, JavaScript sort being stable). -/
def insertByScoreDesc (m : AiMove) : List AiMove → List AiMove
  | [] => [m]
  | b :: l => if b.score > m.score then b :: insertByScoreDesc m l else m :: b :: l

/-- The stable descending sort by score of `evaluateMoves`. -/
def sortByScoreDesc : List AiMove → List AiMove
  | [] => []
  | a :: l => insertByScoreDesc a (sortByScoreDesc l)

/-- The idealization of `evaluateMoves` from `workers/ai.worker.ts` that
the spec's partition-equivalence sentence presupposes: every move of the
batch is scored by the pure `rootScoreIdeal` (no per-move wall-clock
timeout break, no transposition table shared across the batch) and the
batch is returned sorted by score descending.  The faithful stateful
translation of the source function is `evaluateMoves` below. -/
def evaluateMovesIdeal (board : Board) (moves : List AiMove) : List AiMove :=
  sortByScoreDesc (moves.map (fun move => { move with score := rootScoreIdeal board move }))

/-- `PIECE_TYPE_INDEX` from `core/helpers/chess-constants.ts`. -/
def PIECE_TYPE_INDEX : PieceType → Nat
  | PieceType.pawn => 0
  | PieceType.knight => 1
  | PieceType.bishop => 2
  | PieceType.rook => 3
  | PieceType.queen => 4
  | PieceType.king => 5

/-- `PIECE_COLOR_INDEX` from `core/helpers/chess-constants.ts`. -/
def PIECE_COLOR_INDEX : PieceColor → Nat
  | PieceColor.white => 0
  | PieceColor.black => 1

/-- The worker's Zobrist table: `initializeZobrist` fills it with draws of
`Math.floor(Math.random() * 0x7FFFFFFF)`, one per square, piece type and
color, so a run of the worker is parameterized by an arbitrary table. -/
abbrev Zobrist := Nat → Nat → Nat → Nat → Nat

/-- `generateBoardHash` from `workers/ai.worker.ts`: XOR of the table
entries of the occupied squares (the source renders the hash with
`toString(16)` to build the string cache key, which is injective on the
hash, so the hash itself is kept). -/
def generateBoardHash (zob : Zobrist) (board : Board) : Nat :=
  (List.range 8).foldl (fun h row =>
    (List.range 8).foldl (fun h col =>
      match Evaluation.pieceAtN board row col with
      | some p => h ^^^ zob row col (PIECE_TYPE_INDEX p.type) (PIECE_COLOR_INDEX p.color)
      | none => h) h) 0

/-- One entry of the worker's `transpositionTable` (`{ score, depth }`). -/
structure TTEntry where
  score : JSNum
  depth : Nat
deriving DecidableEq

/-- The worker's `transpositionTable`: a `Map` from the cache key
`hash|depth|maximizingPlayer` to its entry, as an association list with
JavaScript `Map.set` overwrite semantics. -/
abbrev TT := List ((Nat × Nat × Bool) × TTEntry)

/-- `transpositionTable.get`. -/
def ttGet (tt : TT) (k : Nat × Nat × Bool) : Option TTEntry :=
  match tt.find? (fun e => e.1 = k) with
  | some e => some e.2
  | none => none

/-- `transpositionTable.set`: overwrite the existing binding, else add. -/
def ttSet (tt : TT) (k : Nat × Nat × Bool) (v : TTEntry) : TT :=
  match tt.find? (fun e => e.1 = k) with
  | some _ => tt.map (fun e => if e.1 = k then (k, v) else e)
  | none => (k, v) :: tt

/-- `MAX_CALCULATION_TIME` from `workers/ai.worker.ts` (milliseconds). -/
def MAX_CALCULATION_TIME : Nat := 25000

/-- The worker state threaded by the search: the transposition table and
the time elapsed since `startTime`, counted in abstract work units (one
unit per `minimaxAlphaBeta` invocation; the source reads
`performance.now()`, which advances with the work done, so the budget
`limit` below is the abstract-unit counterpart of
`MAX_CALCULATION_TIME` and is kept as a parameter). -/
structure WState where
  tt : TT
  clock : Nat

/-- `minimaxAlphaBeta` from `workers/ai.worker.ts`, the faithful stateful
translation: the wall-clock timeout guard (`performance.now() - startTime
> MAX_CALCULATION_TIME`, modelled as `clock > limit` in work units)
returns -Infinity/Infinity for the maximizing/minimizing side; the
transposition table is probed under the key `hash|depth|maximizing` and
served when the entry's depth is at least the probe's; every computed
score is stored under that key.  The table and the clock persist across
the moves of a batch, so a move's score may depend on the earlier moves
of its batch. -/
def minimaxAlphaBeta (zob : Zobrist) (limit : Nat) :
    Nat → Board → JSNum → JSNum → Bool → WState → JSNum × WState
  | depth, board, alpha, beta, maximizingPlayer, st0 =>
    let c := st0.clock
    let st : WState := { st0 with clock := c + 1 }
    if limit < c then
      ((if maximizingPlayer then NEG_INF else POS_INF), st)
    else
      let boardHash := generateBoardHash zob board
      let key := (boardHash, depth, maximizingPlayer)
      let served : Option JSNum :=
        match ttGet st.tt key with
        | some cached => if cached.depth ≥ depth then some cached.score else none
        | none => none
      match served with
      | some score => (score, st)
      | none =>
        match depth with
        | 0 =>
          let score := quiescenceSearch board alpha beta maximizingPlayer QUIESCENCE_DEPTH
          (score, { st with tt := ttSet st.tt key ⟨score, 0⟩ })
        | d + 1 =>
          let color := if maximizingPlayer then PieceColor.black else PieceColor.white
          let moves := allMovesFor board color
          if moves.isEmpty then
            let score := finQ (Evaluation.evaluateBoard board)
            (score, { st with tt := ttSet st.tt key ⟨score, d + 1⟩ })
          else
            let orderedMoves := orderMoves moves board
            if maximizingPlayer then
              let r := orderedMoves.foldl (fun acc move =>
                let value := acc.1
                let a := acc.2.1
                let brk := acc.2.2.1
                let s := acc.2.2.2
                if brk then acc
                else
                  let newBoard := simulateMove board move.fromP move.toP
                  let res := minimaxAlphaBeta zob limit d newBoard a beta false s
                  let score := res.1
                  let value1 := max value score
                  let a1 := max a score
                  (value1, a1, decide (a1 ≥ beta), res.2))
                (NEG_INF, alpha, false, st)
              (r.1, { r.2.2.2 with tt := ttSet r.2.2.2.tt key ⟨r.1, d + 1⟩ })
            else
              let r := orderedMoves.foldl (fun acc move =>
                let value := acc.1
                let b := acc.2.1
                let brk := acc.2.2.1
                let s := acc.2.2.2
                if brk then acc
                else
                  let newBoard := simulateMove board move.fromP move.toP
                  let res := minimaxAlphaBeta zob limit d newBoard alpha b true s
                  let score := res.1
                  let value1 := min value score
                  let b1 := min b score
                  (value1, b1, decide (b1 ≤ alpha), res.2))
                (POS_INF, beta, false, st)
              (r.1, { r.2.2.2 with tt := ttSet r.2.2.2.tt key ⟨r.1, d + 1⟩ })

/-- `evaluateMoves` from `workers/ai.worker.ts`, the faithful stateful
translation: `startTime` is reset on entry (the clock starts at 0), each
iteration of the loop first re-checks the budget and breaks out for good
when it is exhausted (so the returned list may be a truncated prefix of
the batch), scores the move at `MAX_DEPTH - 1` otherwise, and the scored
prefix is returned sorted by score descending.  The transposition table
`tt0` received from earlier requests is threaded through the whole
batch. -/
def evaluateMoves (zob : Zobrist) (limit : Nat) (board : Board)
    (moves : List AiMove) (tt0 : TT) : List AiMove × WState :=
  let r := moves.foldl (fun acc move =>
    let evaluated := acc.1
    let brk := acc.2.1
    let st := acc.2.2
    if brk then acc
    else if limit < st.clock then (evaluated, true, st)
    else
      let newBoard := simulateMove board move.fromP move.toP
      let res := minimaxAlphaBeta zob limit (MAX_DEPTH - 1) newBoard
        NEG_INF POS_INF false st
      (evaluated ++ [{ move with score := res.1 }], false, res.2))
    (([] : List AiMove), false, ({ tt := tt0, clock := 0 } : WState))
  (sortByScoreDesc r.1, r.2.2)

end Worker

namespace WorkerPool

open BasicValidation CoreUtils Worker

/-- `getAllPossibleMoves` from `worker-pool.service.ts`: every rule-valid
move of every black piece, with initial score `0`. -/
def getAllPossibleMoves (board : Board) : List AiMove :=
  (getAllPiecesForColor board PieceColor.black).flatMap (fun piecePos =>
    (getValidMovesForPiece board piecePos).map (fun targetPos =>
      { fromP := piecePos, toP := targetPos, score := finQ 0 }))

/-- `findBestFromResults` from `worker-pool.service.ts`: the JavaScript
`reduce` keeping the strictly higher score, so the first of the
highest-scoring results wins. -/
def findBestFromResults (results : List AiMove) : Option AiMove :=
  match results with
  | [] => none
  | a :: rest =>
    some (rest.foldl (fun best current =>
      if current.score > best.score then current else best) a)

/-- The slicing of `processMultipleWorkers`: `Math.ceil(len / n)` moves
per worker, one contiguous slice per worker, empty slices dropped. -/
def partitionForWorkers (allMoves : List AiMove) (numWorkers : Nat) :
    List (List AiMove) :=
  let movesPerWorker := (allMoves.length + numWorkers - 1) / numWorkers
  ((List.range numWorkers).map (fun i =>
    (allMoves.drop (i * movesPerWorker)).take movesPerWorker)).filter
    (fun part => !part.isEmpty)

end WorkerPool

namespace WorkerPool

open Worker

/-- One step of the JavaScript `reduce` of `findBestFromResults`, lifted
to an `Option` accumulator so the seeding by the first element becomes a
uniform left fold (proved equal to the source definition below). -/
def reduceStep (best : Option AiMove) (current : AiMove) : Option AiMove :=
  match best with
  | none => some current
  | some b => some (if current.score > b.score then current else b)

theorem foldl_reduceStep_some (t : List AiMove) : ∀ b : AiMove,
    some (t.foldl (fun best current =>
      if current.score > best.score then current else best) b) =
      t.foldl reduceStep (some b) := by
  induction t with
  | nil => intro b; rfl
  | cons x t ih => intro b; exact ih _

/-- `findBestFromResults` is the left fold of `reduceStep` from `none`. -/
theorem findBestFromResults_eq_foldl (l : List AiMove) :
    findBestFromResults l = l.foldl reduceStep none := by
  cases l with
  | nil => rfl
  | cons a rest => exact foldl_reduceStep_some rest a

/-- Two successive `reduceStep`s commute when the first move strictly
outscores the second. -/
theorem reduceStep_swap (o : Option AiMove) (b m : AiMove)
    (h : m.score < b.score) :
    reduceStep (reduceStep o b) m = reduceStep (reduceStep o m) b := by
  cases o with
  | none =>
    dsimp [reduceStep]
    rw [if_neg (not_lt_of_gt h), if_pos h]
  | some a =>
    dsimp [reduceStep]
    by_cases hab : a.score < b.score
    · rw [if_pos hab, if_neg (not_lt_of_gt h)]
      by_cases ham : a.score < m.score
      · rw [if_pos ham, if_pos h]
      · rw [if_neg ham, if_pos hab]
    · rw [if_neg hab]
      by_cases ham : a.score < m.score
      · exact absurd (lt_trans ham h) hab
      · rw [if_neg ham, if_neg hab]

/-- Folding over a stable score-descending insertion is folding over the
plain cons. -/
theorem foldl_reduceStep_insert (m : AiMove) (l : List AiMove) :
    ∀ o : Option AiMove,
    (insertByScoreDesc m l).foldl reduceStep o = (m :: l).foldl reduceStep o := by
  induction l with
  | nil => intro o; rfl
  | cons b t ih =>
    intro o
    dsimp [insertByScoreDesc]
    by_cases h : m.score < b.score
    · rw [if_pos h]
      show (insertByScoreDesc m t).foldl reduceStep (reduceStep o b) = _
      rw [ih (reduceStep o b)]
      show (t.foldl reduceStep (reduceStep (reduceStep o b) m)) = _
      rw [reduceStep_swap o b m h]
    · rw [if_neg h]
      rfl

/-- Folding over the score-descending sort is folding over the original
list. -/
theorem foldl_reduceStep_sort (l : List AiMove) : ∀ o : Option AiMove,
    (sortByScoreDesc l).foldl reduceStep o = l.foldl reduceStep o := by
  induction l with
  | nil => intro o; rfl
  | cons a t ih =>
    intro o
    dsimp [sortByScoreDesc]
    rw [foldl_reduceStep_insert a (sortByScoreDesc t) o]
    show (sortByScoreDesc t).foldl reduceStep (reduceStep o a) = _
    exact ih (reduceStep o a)

/-- Folding over the concatenation of per-batch sorted lists is folding
over the concatenation of the batches. -/
theorem foldl_reduceStep_flatten_sort (parts : List (List AiMove)) :
    ∀ o : Option AiMove,
    ((parts.map sortByScoreDesc).flatten).foldl reduceStep o =
      parts.flatten.foldl reduceStep o := by
  induction parts with
  | nil => intro o; rfl
  | cons p ps ih =>
    intro o
    simp only [List.map_cons, List.flatten_cons, List.foldl_append]
    rw [foldl_reduceStep_sort p o]
    exact ih _

/-- Mapping into a flattened list of lists. -/
theorem flatten_map_comm {α β : Type} (f : α → β) (L : List (List α)) :
    (L.map (List.map f)).flatten = L.flatten.map f := by
  induction L with
  | nil => rfl
  | cons p ps ih =>
    simp only [List.map_cons, List.flatten_cons, List.map_append, ih]

/-- Empty batches contribute nothing to the flattening. -/
theorem flatten_filter_nonempty {α : Type} (L : List (List α)) :
    (L.filter (fun part => !part.isEmpty)).flatten = L.flatten := by
  induction L with
  | nil => rfl
  | cons p ps ih =>
    cases p with
    | nil => simpa using ih
    | cons x t => simpa using ih

/-- The ceil-sized contiguous slices of `partitionForWorkers` reassemble
the full move list. -/
theorem slices_flatten {α : Type} : ∀ (n : Nat) (l : List α) (k : Nat),
    l.length ≤ n * k →
    ((List.range n).map (fun i => (l.drop (i * k)).take k)).flatten = l := by
  intro n
  induction n with
  | zero =>
    intro l k h
    have : l = [] := List.eq_nil_of_length_eq_zero (by simpa using h)
    simp [this]
  | succ n ih =>
    intro l k h
    rw [List.range_succ_eq_map]
    simp only [List.map_cons, List.map_map, List.flatten_cons]
    have hrest : ((List.range n).map
        (fun i => ((l.drop k).drop (i * k)).take k)).flatten = l.drop k := by
      have hlen : (l.drop k).length ≤ n * k := by
        simp only [List.length_drop]
        have : l.length ≤ (n + 1) * k := h
        have hexp : (n + 1) * k = n * k + k := by ring
        omega
      have := ih (l.drop k) k hlen
      simpa using this
    have hcomp : ((fun i => (l.drop (i * k)).take k) ∘ Nat.succ) =
        (fun i => ((l.drop k).drop (i * k)).take k) := by
      funext i
      simp only [Function.comp]
      rw [List.drop_drop]
      congr 2
      rw [Nat.succ_mul]
      omega
    rw [hcomp, hrest]
    simp only [Nat.zero_mul, List.drop_zero]
    exact List.take_append_drop k l

/-- `partitionForWorkers` flattens back to the full move list whenever at
least one worker is available, evenly divisible or not. -/
theorem partitionForWorkers_flatten (l : List AiMove) (n : Nat) (hn : 0 < n) :
    (partitionForWorkers l n).flatten = l := by
  unfold partitionForWorkers
  dsimp only
  rw [flatten_filter_nonempty]
  apply slices_flatten
  have h1 := Nat.div_add_mod (l.length + n - 1) n
  have h2 := Nat.mod_lt (l.length + n - 1) hn
  omega

end WorkerPool

/-- Rule rejection is immediate when the destination square is out of
range. -/
theorem BasicValidation.isValidMove_false_of_invalid_to (board : Board)
    (piece : ChessPiece) (fromRow fromCol toRow toCol : Int)
    (h : BasicValidation.isValidCoordinates toRow toCol = false) :
    BasicValidation.isValidMove board piece fromRow fromCol toRow toCol = false := by
  unfold BasicValidation.isValidMove
  simp [h]

/-- A rule-valid move has an in-range destination. -/
theorem BasicValidation.isValidMove_to_valid (board : Board) (piece : ChessPiece)
    (fromRow fromCol toRow toCol : Int)
    (h : BasicValidation.isValidMove board piece fromRow fromCol toRow toCol = true) :
    BasicValidation.isValidCoordinates toRow toCol = true := by
  by_cases hv : BasicValidation.isValidCoordinates toRow toCol = true
  · exact hv
  · rw [BasicValidation.isValidMove_false_of_invalid_to board piece fromRow fromCol
      toRow toCol (by simpa using hv)] at h
    exact absurd h (by simp)

/-! ### Reachability through the public move API -/

namespace AppService

/-- The game states reachable from `initializeGame` through the public
move-application API (`makeMove` for the human side, `executeAiMove` for
the AI side; `validateMove` is stateless). -/
inductive Reachable (cfg : DisplayCfg) : AppState → Prop where
  | init : Reachable cfg initializeGame
  | humanMove (s : AppState) (fromPos toPos : String) :
      Reachable cfg s → Reachable cfg (makeMove cfg s fromPos toPos).2
  | aiMove (s : AppState) (fromPos toPos : String) :
      Reachable cfg s → Reachable cfg (executeAiMove cfg s fromPos toPos).2

/-- A non-executing `validateMoveInternal` returns the state untouched on
every branch. -/
theorem validateMoveInternal_false_snd (cfg : DisplayCfg) (s : AppState)
    (fromPos toPos : String) :
    (validateMoveInternal cfg s fromPos toPos false).2 = s := by
  unfold validateMoveInternal
  split
  · rfl
  · split
    · rfl
    · dsimp only
      split
      · rfl
      · rfl

/-- A failing `validateMoveInternal` (any `execute` flag) reports a
structured error and returns the state untouched. -/
theorem validateMoveInternal_fail (cfg : DisplayCfg) (s : AppState)
    (fromPos toPos : String) (execute : Bool)
    (h : ¬ isGameActive s = true ∨ validateTurn s fromPos ≠ none ∨
      isValidMoveComplete s.board fromPos toPos = false) :
    (validateMoveInternal cfg s fromPos toPos execute).1.success = false ∧
      (validateMoveInternal cfg s fromPos toPos execute).1.error.isSome = true ∧
      (validateMoveInternal cfg s fromPos toPos execute).2 = s := by
  unfold validateMoveInternal
  by_cases hg : isGameActive s = true
  · rcases hv : validateTurn s fromPos with _ | err
    · have hr : isValidMoveComplete s.board fromPos toPos = false := by
        rcases h with h | h | h
        · exact absurd hg h
        · exact absurd hv h
        · exact h
      simp [hg, hv, hr, failure]
    · simp [hg, hv, failure]
  · simp [hg, failure]

/-- The claim's invalid-input taxonomy for a `(from, to)` request:
an out-of-range square, no piece at the source, a piece of the wrong
color for the current turn, or a rule violation. -/
def invalidInput (s : AppState) (fromPos toPos : String) : Prop :=
  (BasicValidation.isValidCoordinates
      (BasicValidation.positionToCoordinates fromPos).row
      (BasicValidation.positionToCoordinates fromPos).col = false) ∨
  (BasicValidation.isValidCoordinates
      (BasicValidation.positionToCoordinates toPos).row
      (BasicValidation.positionToCoordinates toPos).col = false) ∨
  BasicValidation.getPieceAtPosition s.board fromPos = none ∨
  (∃ p, BasicValidation.getPieceAtPosition s.board fromPos = some p ∧
    p.color ≠ s.currentTurn) ∨
  isValidMoveComplete s.board fromPos toPos = false

/-- Invalid input forces one of the internal validation checks to fail. -/
theorem invalidInput_validation_fails (s : AppState) (fromPos toPos : String)
    (h : invalidInput s fromPos toPos) :
    validateTurn s fromPos ≠ none ∨
      isValidMoveComplete s.board fromPos toPos = false := by
  rcases h with h | h | h | ⟨p, hp, hc⟩ | h
  · left
    unfold validateTurn
    unfold BasicValidation.getPieceAtPosition
    simp [h]
  · right
    unfold isValidMoveComplete
    rcases hp : BasicValidation.getPieceAtPosition s.board fromPos with _ | p
    · simp
    · exact BasicValidation.isValidMove_false_of_invalid_to _ _ _ _ _ _ h
  · left
    unfold validateTurn
    rw [h]
    simp
  · left
    unfold validateTurn
    rw [hp]
    simp [hc]
  · right; exact h

/-- When the internal validation fails, `makeMove` reports a structured
failure and leaves the state untouched on every branch (including the
white-side simulation branch). -/
theorem makeMove_fail_of_validation (cfg : DisplayCfg) (s : AppState)
    (fromPos toPos : String)
    (h : validateTurn s fromPos ≠ none ∨
      isValidMoveComplete s.board fromPos toPos = false) :
    (makeMove cfg s fromPos toPos).1.success = false ∧
      (makeMove cfg s fromPos toPos).1.error.isSome = true ∧
      (makeMove cfg s fromPos toPos).2 = s := by
  have hexec := validateMoveInternal_fail cfg s fromPos toPos true (Or.inr h)
  have hval := validateMoveInternal_fail cfg s fromPos toPos false (Or.inr h)
  unfold makeMove
  rcases hp : BasicValidation.getPieceAtPosition s.board fromPos with _ | p
  · simpa [executeMove] using hexec
  · by_cases hw : p.color = PieceColor.white
    · have hsim : simulatePlayerMove cfg s fromPos toPos = none := by
        unfold simulatePlayerMove
        simp [hval.1]
      simp [hw, hsim, failure]
    · simpa [hw, executeMove] using hexec

/-- A passing turn check means the source piece exists and matches the
side to move. -/
theorem validateTurn_none_inv (s : AppState) (fromPos : String)
    (h : validateTurn s fromPos = none) :
    ∃ p, BasicValidation.getPieceAtPosition s.board fromPos = some p ∧
      p.color = s.currentTurn := by
  unfold validateTurn at h
  rcases hp : BasicValidation.getPieceAtPosition s.board fromPos with _ | p
  · rw [hp] at h; simp at h
  · rw [hp] at h
    by_cases hc : p.color = s.currentTurn
    · exact ⟨p, rfl, hc⟩
    · simp [hc] at h

/-- Whatever the `execute` flag, a successful `validateMoveInternal`
implies the game was active, the turn check passed and the move was
rule-valid. -/
theorem validateMoveInternal_success_inv (cfg : DisplayCfg) (s : AppState)
    (fromPos toPos : String) (execute : Bool)
    (h : (validateMoveInternal cfg s fromPos toPos execute).1.success = true) :
    isGameActive s = true ∧ validateTurn s fromPos = none ∧
      isValidMoveComplete s.board fromPos toPos = true := by
  by_cases hg : isGameActive s = true
  · rcases hv : validateTurn s fromPos with _ | err
    · by_cases hr : isValidMoveComplete s.board fromPos toPos = true
      · exact ⟨hg, hv ▸ rfl, hr⟩
      · exact absurd ((validateMoveInternal_fail cfg s fromPos toPos execute
          (Or.inr (Or.inr (by simpa using hr)))).1) (by simp [h])
    · exact absurd ((validateMoveInternal_fail cfg s fromPos toPos execute
        (Or.inr (Or.inl (by simp [hv])))).1) (by simp [h])
  · exact absurd ((validateMoveInternal_fail cfg s fromPos toPos execute
      (Or.inl hg)).1) (by simp [h])

/-- A successful `makeMove` also passed the internal validation (all of
its branches either run `executeMove` or fail). -/
theorem makeMove_success_inv (cfg : DisplayCfg) (s : AppState)
    (fromPos toPos : String)
    (h : (makeMove cfg s fromPos toPos).1.success = true) :
    isGameActive s = true ∧ validateTurn s fromPos = none ∧
      isValidMoveComplete s.board fromPos toPos = true := by
  unfold makeMove at h
  rcases hp : BasicValidation.getPieceAtPosition s.board fromPos with _ | p <;>
    rw [hp] at h <;> dsimp only at h
  · exact validateMoveInternal_success_inv cfg s fromPos toPos true h
  · by_cases hw : p.color = PieceColor.white
    · rw [if_pos hw] at h
      rcases hsim : simulatePlayerMove cfg s fromPos toPos with _ | sb <;>
        rw [hsim] at h <;> dsimp only at h
      · simp [failure] at h
      · by_cases hck : canBlackMakeCheckmate sb = true
        · rw [if_pos hck] at h; simp [failure] at h
        · rw [if_neg hck] at h
          exact validateMoveInternal_success_inv cfg s fromPos toPos true h
    · rw [if_neg hw] at h
      exact validateMoveInternal_success_inv cfg s fromPos toPos true h

/-- Inversion of a successful board-position lookup. -/
theorem getPieceAtPosition_some_inv (board : Board) (pos : String) (p : ChessPiece)
    (h : BasicValidation.getPieceAtPosition board pos = some p) :
    BasicValidation.isValidCoordinates (BasicValidation.positionToCoordinates pos).row
        (BasicValidation.positionToCoordinates pos).col = true ∧
      pieceAtRC board (BasicValidation.positionToCoordinates pos).row
        (BasicValidation.positionToCoordinates pos).col = some p := by
  unfold BasicValidation.getPieceAtPosition at h
  by_cases hv : BasicValidation.isValidCoordinates
      (BasicValidation.positionToCoordinates pos).row
      (BasicValidation.positionToCoordinates pos).col = true
  · rw [if_pos hv] at h; exact ⟨hv, h⟩
  · rw [if_neg hv] at h; exact absurd h (by simp)

/-- Inversion of a passing `isValidMoveComplete`. -/
theorem isValidMoveComplete_success_inv (board : Board) (fromPos toPos : String)
    (h : isValidMoveComplete board fromPos toPos = true) :
    ∃ p, BasicValidation.getPieceAtPosition board fromPos = some p ∧
      BasicValidation.isValidMove board p
        (BasicValidation.positionToCoordinates fromPos).row
        (BasicValidation.positionToCoordinates fromPos).col
        (BasicValidation.positionToCoordinates toPos).row
        (BasicValidation.positionToCoordinates toPos).col = true := by
  unfold isValidMoveComplete at h
  rcases hp : BasicValidation.getPieceAtPosition board fromPos with _ | p <;>
    rw [hp] at h <;> dsimp only at h
  · exact absurd h (by simp)
  · exact ⟨p, rfl, h⟩

/-- `performMoveWithResult` succeeds whenever the source piece exists
and the destination square is in range. -/
theorem performMoveWithResult_success (cfg : DisplayCfg) (s : AppState)
    (fromPos toPos : String) (cap : Option ChessPiece) (p : ChessPiece)
    (hp : BasicValidation.getPieceAtPosition s.board fromPos = some p)
    (ht : BasicValidation.isValidCoordinates
      (BasicValidation.positionToCoordinates toPos).row
      (BasicValidation.positionToCoordinates toPos).col = true) :
    (performMoveWithResult cfg s fromPos toPos cap).1.success = true := by
  obtain ⟨hfv, hfp⟩ := getPieceAtPosition_some_inv s.board fromPos p hp
  have hfs : BasicValidation.getSquareAtPosition s.board fromPos =
      some (boardSq s.board (BasicValidation.positionToCoordinates fromPos).row
        (BasicValidation.positionToCoordinates fromPos).col) := by
    unfold BasicValidation.getSquareAtPosition
    rw [if_pos hfv]
  have hts : BasicValidation.getSquareAtPosition s.board toPos =
      some (boardSq s.board (BasicValidation.positionToCoordinates toPos).row
        (BasicValidation.positionToCoordinates toPos).col) := by
    unfold BasicValidation.getSquareAtPosition
    rw [if_pos ht]
  have hfp2 : (boardSq s.board (BasicValidation.positionToCoordinates fromPos).row
      (BasicValidation.positionToCoordinates fromPos).col).piece = some p := hfp
  unfold performMoveWithResult
  simp only [CoreUtils.deepCloneBoard_eq, hfs, hts, hfp2]

/-- Successful non-executing validation guarantees that the executing
call also reports success. -/
theorem validateMoveInternal_exec_success (cfg : DisplayCfg) (s : AppState)
    (fromPos toPos : String)
    (h : (validateMoveInternal cfg s fromPos toPos false).1.success = true) :
    (validateMoveInternal cfg s fromPos toPos true).1.success = true := by
  obtain ⟨hg, hv, hr⟩ := validateMoveInternal_success_inv cfg s fromPos toPos false h
  obtain ⟨p, hp, hvm⟩ := isValidMoveComplete_success_inv s.board fromPos toPos hr
  unfold validateMoveInternal
  rw [if_neg (show ¬¬ isGameActive s = true by simp [hg]), hv]
  dsimp only
  rw [if_neg (show ¬¬ isValidMoveComplete s.board fromPos toPos = true by simp [hr]),
    if_pos rfl]
  exact performMoveWithResult_success cfg s fromPos toPos _ p hp
    (BasicValidation.isValidMove_to_valid _ _ _ _ _ _ hvm)

end AppService

/-- Claim C9: `validateMove` is side-effect-free: it returns the entire
game state unchanged, and therefore calling it twice in a row without an
intervening `makeMove` returns identical results. -/
theorem C9_validateMove_side_effect_free (cfg : AppService.DisplayCfg)
    (s : AppService.AppState) (fromPos toPos : String) :
    (AppService.validateMove cfg s fromPos toPos).2 = s ∧
    AppService.validateMove cfg (AppService.validateMove cfg s fromPos toPos).2
        fromPos toPos =
      AppService.validateMove cfg s fromPos toPos := by
  have h := AppService.validateMoveInternal_false_snd cfg s fromPos toPos
  have h2 : (AppService.validateMove cfg s fromPos toPos).2 = s := h
  exact ⟨h2, by rw [h2]⟩

/-- Claim C1 (amended): whenever the public API accepts a move
(`validateMove` or `makeMove` returns `success = true`), the game is
active, the source piece exists and matches the side to move, and the
move is rule-valid by the per-piece rules (`isValidMove`); the
simulate-then-check king-safety test is not part of this acceptance. -/
theorem C1_accepted_moves_rule_valid_only (cfg : AppService.DisplayCfg)
    (s : AppService.AppState) (fromPos toPos : String)
    (h : (AppService.validateMove cfg s fromPos toPos).1.success = true ∨
      (AppService.makeMove cfg s fromPos toPos).1.success = true) :
    AppService.isGameActive s = true ∧
    (∃ p, BasicValidation.getPieceAtPosition s.board fromPos = some p ∧
      p.color = s.currentTurn) ∧
    AppService.isValidMoveComplete s.board fromPos toPos = true := by
  rcases h with h | h
  · obtain ⟨hg, hv, hr⟩ :=
      AppService.validateMoveInternal_success_inv cfg s fromPos toPos false h
    exact ⟨hg, AppService.validateTurn_none_inv s fromPos hv, hr⟩
  · obtain ⟨hg, hv, hr⟩ := AppService.makeMove_success_inv cfg s fromPos toPos h
    exact ⟨hg, AppService.validateTurn_none_inv s fromPos hv, hr⟩

/-- Witness: from the starting position, `validateMove e2 e4` succeeds,
so the amended claim applies there. -/
theorem C1_accepted_moves_rule_valid_only_witness :
    (AppService.validateMove AppService.placeholderCfg AppService.initializeGame
      "e2" "e4").1.success = true ∧
    (AppService.isGameActive AppService.initializeGame = true ∧
     (∃ p, BasicValidation.getPieceAtPosition AppService.initializeGame.board "e2" =
        some p ∧ p.color = AppService.initializeGame.currentTurn) ∧
     AppService.isValidMoveComplete AppService.initializeGame.board "e2" "e4" = true) := by
  have h : (AppService.validateMove AppService.placeholderCfg AppService.initializeGame
      "e2" "e4").1.success = true := by decide
  exact ⟨h, C1_accepted_moves_rule_valid_only AppService.placeholderCfg
    AppService.initializeGame "e2" "e4" (Or.inl h)⟩

/-- The state after `1. f3` (human move from the start position). -/
def c1s1 : AppService.AppState :=
  (AppService.makeMove AppService.placeholderCfg AppService.initializeGame "f2" "f3").2

/-- The state after `1. f3 e6` (AI reply). -/
def c1s2 : AppService.AppState :=
  (AppService.executeAiMove AppService.placeholderCfg c1s1 "e7" "e6").2

/-- The state after `1. f3 e6 2. a3` (human move). -/
def c1s3 : AppService.AppState :=
  (AppService.makeMove AppService.placeholderCfg c1s2 "a2" "a3").2

/-- The state after `1. f3 e6 2. a3 Qh4+` (AI reply): white is in check
from the queen on h4. -/
def c1s4 : AppService.AppState :=
  (AppService.executeAiMove AppService.placeholderCfg c1s3 "d8" "h4").2

/-- The white a-pawn standing on a3 in `c1s4`. -/
def c1Pawn : ChessPiece :=
  { id := 9, type := PieceType.pawn, color := PieceColor.white,
    position := "a3", hasMoved := none }

set_option maxRecDepth 100000 in
/-- Claim C1 (counterexample): in the reachable state `c1s4` white is in
check, yet `validateMove "a3" "a4"` returns `success = true` although
simulating that pawn move on a cloned board leaves white's own king in
check (`isLegalMove` rejects it).  The public API therefore accepts a
move that is illegal in the simulate-then-check sense. -/
theorem C1_counterexample :
    AppService.Reachable AppService.placeholderCfg c1s4 ∧
    BasicValidation.positionToCoordinates "a3" = ⟨5, 0⟩ ∧
    BasicValidation.positionToCoordinates "a4" = ⟨4, 0⟩ ∧
    (AppService.validateMove AppService.placeholderCfg c1s4 "a3" "a4").1.success =
      true ∧
    BasicValidation.getPieceAtPosition c1s4.board "a3" = some c1Pawn ∧
    c1s4.currentTurn = PieceColor.white ∧
    AdvancedRules.isKingInCheck c1s4.board PieceColor.white = true ∧
    AdvancedRules.isKingInCheck
      (CoreUtils.movedClone c1s4.board c1Pawn 5 0 4 0) PieceColor.white = true ∧
    AdvancedRules.isLegalMove c1s4.board c1Pawn 5 0 4 0 = false := by
  constructor
  · exact AppService.Reachable.aiMove c1s3 "d8" "h4"
      (AppService.Reachable.humanMove c1s2 "a2" "a3"
        (AppService.Reachable.aiMove c1s1 "e7" "e6"
          (AppService.Reachable.humanMove AppService.initializeGame "f2" "f3"
            AppService.Reachable.init)))
  · decide

/-- Claim C4: on invalid input (out-of-range square, no piece at the
source, wrong turn, or a rule violation) both `makeMove` and
`validateMove` return a structured failure (`success = false` with an
error message) and the entire game state — board, side to move, move
counters, capture counters, move history and the rest of `AppState` — is
exactly the same after the call as before it. -/
theorem C4_invalid_input_structured_failure (cfg : AppService.DisplayCfg)
    (s : AppService.AppState) (fromPos toPos : String)
    (h : AppService.invalidInput s fromPos toPos) :
    ((AppService.validateMove cfg s fromPos toPos).1.success = false ∧
     (AppService.validateMove cfg s fromPos toPos).1.error.isSome = true ∧
     (AppService.validateMove cfg s fromPos toPos).2 = s) ∧
    ((AppService.makeMove cfg s fromPos toPos).1.success = false ∧
     (AppService.makeMove cfg s fromPos toPos).1.error.isSome = true ∧
     (AppService.makeMove cfg s fromPos toPos).2 = s) := by
  have hfails := AppService.invalidInput_validation_fails s fromPos toPos h
  exact ⟨AppService.validateMoveInternal_fail cfg s fromPos toPos false (Or.inr hfails),
    AppService.makeMove_fail_of_validation cfg s fromPos toPos hfails⟩

/-- Witness for C4: the rule-violating request e2→e5 from the start
position is invalid input; both APIs reject it and leave the state
untouched. -/
theorem C4_invalid_input_structured_failure_witness :
    AppService.invalidInput AppService.initializeGame "e2" "e5" ∧
    (((AppService.validateMove AppService.placeholderCfg AppService.initializeGame
        "e2" "e5").1.success = false ∧
      (AppService.validateMove AppService.placeholderCfg AppService.initializeGame
        "e2" "e5").1.error.isSome = true ∧
      (AppService.validateMove AppService.placeholderCfg AppService.initializeGame
        "e2" "e5").2 = AppService.initializeGame) ∧
     ((AppService.makeMove AppService.placeholderCfg AppService.initializeGame
        "e2" "e5").1.success = false ∧
      (AppService.makeMove AppService.placeholderCfg AppService.initializeGame
        "e2" "e5").1.error.isSome = true ∧
      (AppService.makeMove AppService.placeholderCfg AppService.initializeGame
        "e2" "e5").2 = AppService.initializeGame)) := by
  have hinv : AppService.invalidInput AppService.initializeGame "e2" "e5" :=
    Or.inr (Or.inr (Or.inr (Or.inr (by decide))))
  exact ⟨hinv, C4_invalid_input_structured_failure AppService.placeholderCfg
    AppService.initializeGame "e2" "e5" hinv⟩

/-- The white e-pawn as it stands on e2 in the starting position (the
piece object `detectMove` reports as moved). -/
def c7PawnE2 : ChessPiece :=
  { id := 13, type := PieceType.pawn, color := PieceColor.white,
    position := "e2", hasMoved := none }

set_option maxRecDepth 100000 in
/-- Claim C7 (counterexample): from the standard starting position,
`makeMove "e2" "e4"` succeeds with no capture, but the string appended
to the move history is not `"e2e4"` (the service appends
`generateIntuitiveMoveNotation`, not `generateMoveNotation`). -/
theorem C7_counterexample :
    (AppService.makeMove AppService.placeholderCfg AppService.initializeGame
      "e2" "e4").1.success = true ∧
    (AppService.makeMove AppService.placeholderCfg AppService.initializeGame
      "e2" "e4").1.captured = none ∧
    (AppService.makeMove AppService.placeholderCfg AppService.initializeGame
      "e2" "e4").2.moveHistory.getLast? ≠ some "e2e4" := by
  decide

set_option maxRecDepth 100000 in
/-- Claim C7 (amended): from the standard starting position,
`makeMove "e2" "e4"` returns success with no capture and move type
`normal`; `generateMoveNotation` does produce `"e2e4"`, but the move
history receives the output of `generateIntuitiveMoveNotation` for the
moved pawn, which is never the string `"e2e4"`, whatever the display
name/icon constants are (its template contains mandatory spaces and the
words `mueve a`). -/
theorem C7_e2e4_notation_mismatch :
    (AppService.makeMove AppService.placeholderCfg AppService.initializeGame
      "e2" "e4").1.success = true ∧
    (AppService.makeMove AppService.placeholderCfg AppService.initializeGame
      "e2" "e4").1.captured = none ∧
    (AppService.makeMove AppService.placeholderCfg AppService.initializeGame
      "e2" "e4").1.moveType = some "normal" ∧
    AppService.generateMoveText c7PawnE2 "e2" "e4" none = "e2e4" ∧
    (AppService.makeMove AppService.placeholderCfg AppService.initializeGame
      "e2" "e4").2.moveHistory =
      [AppService.generateIntuitiveMoveText AppService.placeholderCfg c7PawnE2
        "e2" "e4" none] ∧
    (∀ cfg : AppService.DisplayCfg,
      AppService.generateIntuitiveMoveText cfg c7PawnE2 "e2" "e4" none ≠ "e2e4") := by
  refine ⟨by decide, by decide, by decide, by decide, by decide, ?_⟩
  intro cfg h
  have hlen := congrArg String.length h
  unfold AppService.generateIntuitiveMoveText at hlen
  simp only [String.length_append] at hlen
  have h1 : (" " : String).length = 1 := rfl
  have h2 : ("e2" : String).length = 2 := rfl
  have h3 : ("e4" : String).length = 2 := rfl
  have h4 : ("mueve a" : String).length = 7 := rfl
  have h5 : ("e2e4" : String).length = 4 := rfl
  simp only [Option.isSome_none, Bool.false_eq_true, if_false] at hlen
  omega

/-! ### Algebra of single-square board updates (for the round-trip claim) -/

/-- Reading an entry just written. -/
theorem getD_set_self {α : Type} (l : List α) (n : Nat) (a d : α) (h : n < l.length) :
    (l.set n a).getD n d = a := by
  rw [List.getD_eq_getElem?_getD, List.getElem?_set]
  simp [h]

/-- Reading an entry other than the one written. -/
theorem getD_set_ne {α : Type} (l : List α) (m n : Nat) (a d : α) (h : m ≠ n) :
    (l.set m a).getD n d = l.getD n d := by
  rw [List.getD_eq_getElem?_getD, List.getElem?_set, if_neg h,
    ← List.getD_eq_getElem?_getD]

/-- Writing back the entry already present. -/
theorem set_getD_self {α : Type} (l : List α) (n : Nat) (d : α) (h : n < l.length) :
    l.set n (l.getD n d) = l := by
  apply List.ext_getElem?
  intro m
  rw [List.getElem?_set]
  by_cases he : n = m
  · subst he
    simp [h, List.getElem?_eq_getElem h, List.getD_eq_getElem]
  · simp [he]

/-- Rows of a well-formed board have length 8. -/
theorem rowAt_length (b : Board) (hwf : wfBoard b) (n : Nat) (hn : n < b.length) :
    (b.getD n []).length = 8 := by
  rw [List.getD_eq_getElem b [] hn]
  exact hwf.2 _ (b.getElem_mem hn)

/-- A square holding a piece is in range on a well-formed board. -/
theorem pieceAtRC_some_bounds (b : Board) (r c : Int) (p : ChessPiece)
    (hwf : wfBoard b) (h : pieceAtRC b r c = some p) :
    0 ≤ r ∧ r < 8 ∧ 0 ≤ c ∧ c < 8 := by
  unfold pieceAtRC boardSq at h
  by_cases hg : 0 ≤ r ∧ 0 ≤ c
  · rw [if_pos hg] at h
    by_cases hrn : r.toNat < b.length
    · by_cases hcn : c.toNat < (b.getD r.toNat []).length
      · have h8 : b.length = 8 := hwf.1
        have hrow8 : (b.getD r.toNat []).length = 8 := rowAt_length b hwf _ hrn
        refine ⟨hg.1, ?_, hg.2, ?_⟩ <;> omega
      · rw [List.getD_eq_getElem?_getD (b.getD r.toNat []),
          List.getElem?_eq_none (by omega)] at h
        simp [oobSquare] at h
    · rw [List.getD_eq_getElem?_getD b, List.getElem?_eq_none (by omega)] at h
      simp [oobSquare] at h
  · rw [if_neg hg] at h
    simp [oobSquare] at h

/-- `setPieceRC` keeps the 8×8 shape. -/
theorem wfBoard_setPieceRC (b : Board) (r c : Int) (pc : Option ChessPiece)
    (hwf : wfBoard b) : wfBoard (setPieceRC b r c pc) := by
  unfold setPieceRC
  split
  · refine ⟨by simpa using hwf.1, ?_⟩
    intro row hrow
    by_cases hrn : r.toNat < b.length
    · rcases List.mem_or_eq_of_mem_set hrow with hmem | heq
      · exact hwf.2 row hmem
      · subst heq
        simpa using rowAt_length b hwf _ hrn
    · rw [List.set_eq_of_length_le (le_of_not_lt hrn)] at hrow
      exact hwf.2 row hrow
  · exact hwf

/-- Reading the square just written. -/
theorem pieceAtRC_set_same (b : Board) (r c : Int) (pc : Option ChessPiece)
    (hwf : wfBoard b) (hb : 0 ≤ r ∧ r < 8 ∧ 0 ≤ c ∧ c < 8) :
    pieceAtRC (setPieceRC b r c pc) r c = pc := by
  have hrn : r.toNat < b.length := by rw [hwf.1]; omega
  have hcn : c.toNat < (b.getD r.toNat []).length := by
    rw [rowAt_length b hwf _ hrn]; omega
  unfold pieceAtRC boardSq setPieceRC
  rw [if_pos ⟨hb.1, hb.2.2.1⟩, if_pos ⟨hb.1, hb.2.2.1⟩,
    getD_set_self _ _ _ _ hrn, getD_set_self _ _ _ _ hcn]

/-- Reading a square other than the one written (both in range). -/
theorem pieceAtRC_set_ne (b : Board) (r c r2 c2 : Int) (pc : Option ChessPiece)
    (hwf : wfBoard b) (hb : 0 ≤ r ∧ r < 8 ∧ 0 ≤ c ∧ c < 8)
    (hb2 : 0 ≤ r2 ∧ r2 < 8 ∧ 0 ≤ c2 ∧ c2 < 8) (hne : ¬ (r = r2 ∧ c = c2)) :
    pieceAtRC (setPieceRC b r c pc) r2 c2 = pieceAtRC b r2 c2 := by
  have hrn : r.toNat < b.length := by rw [hwf.1]; omega
  have hgc : 0 ≤ r ∧ 0 ≤ c := ⟨hb.1, hb.2.2.1⟩
  have hgc2 : 0 ≤ r2 ∧ 0 ≤ c2 := ⟨hb2.1, hb2.2.2.1⟩
  unfold pieceAtRC boardSq setPieceRC
  simp only [if_pos hgc, if_pos hgc2]
  by_cases hr : r = r2
  · have hc : c.toNat ≠ c2.toNat := by omega
    rw [← hr, getD_set_self _ _ _ _ hrn, getD_set_ne _ _ _ _ _ hc]
  · have hrr : r.toNat ≠ r2.toNat := by omega
    rw [getD_set_ne _ _ _ _ _ hrr]

/-- Two writes to the same square keep only the second. -/
theorem setPieceRC_absorb (b : Board) (r c : Int) (v w : Option ChessPiece) :
    setPieceRC (setPieceRC b r c v) r c w = setPieceRC b r c w := by
  unfold setPieceRC
  by_cases hg : 0 ≤ r ∧ 0 ≤ c
  · rw [if_pos hg, if_pos hg, if_pos hg]
    by_cases hrn : r.toNat < b.length
    · rw [getD_set_self _ _ _ _ hrn, List.set_set]
      by_cases hcn : c.toNat < (b.getD r.toNat []).length
      · rw [getD_set_self _ _ _ _ hcn, List.set_set]
      · rw [List.set_eq_of_length_le (le_of_not_lt hcn)]
    · rw [List.set_eq_of_length_le (le_of_not_lt hrn)]
  · rw [if_neg hg, if_neg hg, if_neg hg]

/-- Writes to two different squares commute (both in range). -/
theorem setPieceRC_comm (b : Board) (r c r2 c2 : Int) (v w : Option ChessPiece)
    (hwf : wfBoard b) (hb : 0 ≤ r ∧ r < 8 ∧ 0 ≤ c ∧ c < 8)
    (hb2 : 0 ≤ r2 ∧ r2 < 8 ∧ 0 ≤ c2 ∧ c2 < 8) (hne : ¬ (r = r2 ∧ c = c2)) :
    setPieceRC (setPieceRC b r c v) r2 c2 w = setPieceRC (setPieceRC b r2 c2 w) r c v := by
  have hrn : r.toNat < b.length := by rw [hwf.1]; omega
  have hrn2 : r2.toNat < b.length := by rw [hwf.1]; omega
  have hgc : 0 ≤ r ∧ 0 ≤ c := ⟨hb.1, hb.2.2.1⟩
  have hgc2 : 0 ≤ r2 ∧ 0 ≤ c2 := ⟨hb2.1, hb2.2.2.1⟩
  unfold setPieceRC
  simp only [if_pos hgc, if_pos hgc2]
  by_cases hr : r = r2
  · have hc : c.toNat ≠ c2.toNat := by omega
    rw [← hr, getD_set_self _ _ _ _ hrn, getD_set_self _ _ _ _ hrn,
      List.set_set, List.set_set, getD_set_ne _ _ _ _ _ hc,
      getD_set_ne _ _ _ _ _ (Ne.symm hc), List.set_comm _ _ _ hc]
  · have hrr : r.toNat ≠ r2.toNat := by omega
    rw [getD_set_ne _ _ _ _ _ hrr, getD_set_ne _ _ _ _ _ (Ne.symm hrr),
      List.set_comm _ _ _ hrr]

/-- Writing back the occupant already present changes nothing. -/
theorem setPieceRC_self (b : Board) (r c : Int) (pc : Option ChessPiece)
    (hwf : wfBoard b) (hb : 0 ≤ r ∧ r < 8 ∧ 0 ≤ c ∧ c < 8)
    (h : pieceAtRC b r c = pc) : setPieceRC b r c pc = b := by
  have hrn : r.toNat < b.length := by rw [hwf.1]; omega
  have hcn : c.toNat < (b.getD r.toNat []).length := by
    rw [rowAt_length b hwf _ hrn]; omega
  have hgc : 0 ≤ r ∧ 0 ≤ c := ⟨hb.1, hb.2.2.1⟩
  have hp : ((b.getD r.toNat []).getD c.toNat oobSquare).piece = pc := by
    unfold pieceAtRC boardSq at h
    rwa [if_pos hgc] at h
  have hsq : { (b.getD r.toNat []).getD c.toNat oobSquare with piece := pc } =
      (b.getD r.toNat []).getD c.toNat oobSquare := by
    rcases hs : (b.getD r.toNat []).getD c.toNat oobSquare with ⟨pos, col, pieceF⟩
    rw [hs] at hp
    simp only at hp ⊢
    rw [hp]
  unfold setPieceRC
  rw [if_pos hgc, hsq, set_getD_self _ _ _ hcn, set_getD_self _ _ _ hrn]

/-- The claim's pawn-move specification: a single step in the pawn's
color direction onto an empty square; a double step from the home rank
with empty intervening and destination squares; or a one-column diagonal
step in that direction onto a square occupied by an enemy piece. -/
def pawnMoveSpec (board : Board) (piece : ChessPiece)
    (fromRow fromCol toRow toCol : Int) : Prop :=
  let direction : Int := if piece.color = PieceColor.white then -1 else 1
  let startRow : Int := if piece.color = PieceColor.white then 6 else 1
  (pieceAtRC board toRow toCol = none ∧ toCol = fromCol ∧
    toRow = fromRow + direction) ∨
  (fromRow = startRow ∧ toCol = fromCol ∧ toRow = fromRow + 2 * direction ∧
    pieceAtRC board (fromRow + direction) fromCol = none ∧
    pieceAtRC board toRow toCol = none) ∨
  ((toCol - fromCol).natAbs = 1 ∧ toRow = fromRow + direction ∧
    ∃ q, pieceAtRC board toRow toCol = some q ∧ q.color ≠ piece.color)

/-- Claim C2: for every board, every pawn and every in-range source and
destination, the composed legality predicate `isValidMove` accepts the
pawn move exactly when it is a single empty-square step in the color's
direction, a double step from the home rank over empty squares, or a
one-column diagonal capture of an enemy piece. -/
theorem C2_pawn_move_characterization (board : Board) (piece : ChessPiece)
    (fromRow fromCol toRow toCol : Int)
    (hpawn : piece.type = PieceType.pawn)
    (_hbF : BasicValidation.isValidCoordinates fromRow fromCol = true)
    (hbT : BasicValidation.isValidCoordinates toRow toCol = true) :
    BasicValidation.isValidMove board piece fromRow fromCol toRow toCol = true ↔
      pawnMoveSpec board piece fromRow fromCol toRow toCol := by
  unfold BasicValidation.isValidMove
  rw [if_neg (by simp [hbT])]
  unfold pawnMoveSpec
  by_cases heq : fromRow = toRow ∧ fromCol = toCol
  · rw [if_pos heq]
    obtain ⟨h1, h2⟩ := heq
    subst h1; subst h2
    rcases hcol : piece.color <;>
      simp only [hcol, if_pos rfl, reduceCtorEq, if_false] <;>
      constructor <;> intro h <;>
      exact absurd h (by simp)
  · rw [if_neg heq]
    rcases hq : pieceAtRC board toRow toCol with _ | q <;> dsimp only
    · unfold BasicValidation.isValidMoveByRules
      rw [hpawn]
      dsimp only
      unfold BasicValidation.isValidPawnMoveInternal
      rw [hq]
      rcases hcol : piece.color
      · simp only [hcol, if_pos rfl, reduceCtorEq, if_false, eq_self_iff_true,
          true_and, and_true, exists_false, and_false, false_and, or_false,
          BasicValidation.BOARD_SIZE]
        split_ifs with h0 h1 h2
        · simp at h0
        · constructor
          · intro _; exact Or.inl ⟨by omega, by omega⟩
          · intro _; rfl
        · rw [Option.isNone_iff_eq_none]
          constructor
          · intro h; exact Or.inr ⟨by omega, by omega, by omega, h⟩
          · rintro (⟨h3, h4⟩ | ⟨_, _, _, h5⟩)
            · omega
            · exact h5
        · constructor
          · intro h; exact h.elim
          · rintro (⟨h3, h4⟩ | ⟨h5, h6, h7, _⟩) <;> omega
      · simp only [hcol, if_pos rfl, reduceCtorEq, if_false, eq_self_iff_true,
          true_and, and_true, exists_false, and_false, false_and, or_false,
          BasicValidation.BOARD_SIZE]
        split_ifs with h0 h1 h2
        · simp at h0
        · constructor
          · intro _; exact Or.inl ⟨by omega, by omega⟩
          · intro _; rfl
        · rw [Option.isNone_iff_eq_none]
          constructor
          · intro h; exact Or.inr ⟨by omega, by omega, by omega, h⟩
          · rintro (⟨h3, h4⟩ | ⟨_, _, _, h5⟩)
            · omega
            · exact h5
        · constructor
          · intro h; exact h.elim
          · rintro (⟨h3, h4⟩ | ⟨h5, h6, h7, _⟩) <;> omega
    · by_cases hsame : q.color = piece.color
      · rw [if_pos hsame]
        constructor
        · intro h; exact absurd h (by simp)
        · rintro (⟨h, _⟩ | ⟨_, _, _, _, h⟩ | ⟨_, _, q2, hq2, hne⟩)
          · cases h
          · cases h
          · rw [Option.some.injEq] at hq2
            exact absurd (hq2 ▸ hsame) hne
      · rw [if_neg hsame]
        unfold BasicValidation.isValidMoveByRules
        rw [hpawn]
        dsimp only
        unfold BasicValidation.isValidPawnMoveInternal
        rw [hq]
        rcases hcol : piece.color <;>
          simp only [hcol, if_pos rfl, reduceCtorEq, if_false, Option.isSome_some,
            if_true, decide_eq_true_eq, Option.some.injEq]
        · constructor
          · intro h
            refine Or.inr (Or.inr ⟨by omega, by omega, q, rfl, ?_⟩)
            intro hcc
            exact hsame (hcc.trans hcol.symm)
          · rintro (⟨h, _⟩ | ⟨_, _, _, _, h⟩ | ⟨h1, h2, q2, hq2, hne⟩)
            · cases h
            · cases h
            · exact ⟨by omega, by omega⟩
        · constructor
          · intro h
            refine Or.inr (Or.inr ⟨by omega, by omega, q, rfl, ?_⟩)
            intro hcc
            exact hsame (hcc.trans hcol.symm)
          · rintro (⟨h, _⟩ | ⟨_, _, _, _, h⟩ | ⟨h1, h2, q2, hq2, hne⟩)
            · cases h
            · cases h
            · exact ⟨by omega, by omega⟩

/-- The white e2 pawn on the start board (id 13 = 9 + column 4). -/
def c2PawnE2 : ChessPiece :=
  { id := 13, type := PieceType.pawn, color := PieceColor.white,
    position := "e2", hasMoved := none }

/-- Witness for C2: the double step e2–e4 on the start board satisfies
the characterization (and is indeed accepted). -/
theorem C2_pawn_move_characterization_witness :
    c2PawnE2.type = PieceType.pawn ∧
    BasicValidation.isValidCoordinates 6 4 = true ∧
    BasicValidation.isValidCoordinates 4 4 = true ∧
    (BasicValidation.isValidMove AppService.initializeGame.board c2PawnE2 6 4 4 4 =
        true ↔
      pawnMoveSpec AppService.initializeGame.board c2PawnE2 6 4 4 4) := by
  refine ⟨rfl, by decide, by decide,
    C2_pawn_move_characterization AppService.initializeGame.board c2PawnE2
      6 4 4 4 rfl (by decide) (by decide)⟩



/-- Unfolding of `intRangeEx` membership: `.all` over the half-open
integer range `[lo, hi)` is a bounded universal. -/
theorem intRangeEx_all_iff (lo hi : Int) (f : Int → Bool) :
    (intRangeEx lo hi).all f = true ↔ ∀ c : Int, lo ≤ c → c < hi → f c = true := by
  unfold intRangeEx
  rw [List.all_eq_true]
  constructor
  · intro h c hlo hhi
    have hc : f (lo + (((c - lo).toNat : Nat) : Int)) = true := by
      apply h
      simp only [List.mem_map, List.mem_range]
      exact ⟨(c - lo).toNat, by omega, rfl⟩
    have he : lo + (((c - lo).toNat : Nat) : Int) = c := by omega
    rwa [he] at hc
  · intro h x hx
    simp only [List.mem_map, List.mem_range] at hx
    obtain ⟨i, hi2, rfl⟩ := hx
    exact h _ (by omega) (by omega)

/-- Modelled from the spec: a castling attempt is valid exactly when the
king has not previously moved, the corresponding-side rook exists, has the
same color and has not moved, every square strictly between king and rook
is empty, the king is not currently in check, and the king neither passes
through nor lands on a square attacked by the opponent. -/
def castlingSpec (board : Board) (king : ChessPiece)
    (srcRow srcCol tgtRow tgtCol : Int) : Prop :=
  let rookCol : Int := if tgtCol > srcCol then 7 else 0
  let stepCol : Int := if tgtCol > srcCol then srcCol + 1 else srcCol - 1
  hasMovedB king = false ∧
  (∃ rook : ChessPiece, pieceAtRC board srcRow rookCol = some rook ∧
    rook.type = PieceType.rook ∧ rook.color = king.color ∧
    hasMovedB rook = false) ∧
  (∀ c : Int, min srcCol rookCol < c → c < max srcCol rookCol →
    pieceAtRC board srcRow c = none) ∧
  ChessUtilsRules.isKingInCheck board king.color = false ∧
  ChessUtilsRules.isSquareUnderAttack board srcRow stepCol king.color = false ∧
  ChessUtilsRules.isSquareUnderAttack board tgtRow tgtCol king.color = false

/-- Claim C3: for every board and every king move whose offset is exactly
two files along the same rank (to in-bounds coordinates), the castling
branch of `isValidKingMove` returns true iff all the spec's castling
conditions hold. -/
theorem C3_castling_characterization (board : Board) (king : ChessPiece)
    (srcRow srcCol tgtRow tgtCol : Int)
    (hrow : tgtRow = srcRow)
    (hcd : (srcCol - tgtCol).natAbs = 2)
    (hvt : BasicValidation.isValidCoordinates tgtRow tgtCol = true) :
    ChessUtilsRules.isValidKingMove board king srcRow srcCol tgtRow tgtCol = true ↔
      castlingSpec board king srcRow srcCol tgtRow tgtCol := by
  subst hrow
  have hKM : ChessUtilsRules.isValidKingMove board king tgtRow srcCol tgtRow tgtCol
      = ChessUtilsRules.isValidCastlingMove board king tgtRow srcCol tgtRow tgtCol := by
    unfold ChessUtilsRules.isValidKingMove
    rw [if_neg (by simp [hvt]), if_neg (by omega)]
    dsimp only
    rw [if_neg (by omega), if_pos (by omega)]
  rw [hKM]
  unfold ChessUtilsRules.isValidCastlingMove castlingSpec
  dsimp only
  by_cases hm : hasMovedB king = true
  · rw [if_pos hm]
    constructor
    · intro h; simp at h
    · rintro ⟨h1, -⟩; rw [hm] at h1; cases h1
  · rw [if_neg hm]
    rcases hq : pieceAtRC board tgtRow (if tgtCol > srcCol then 7 else 0) with _ | rook
    · constructor
      · intro h; simp at h
      · rintro ⟨-, ⟨rook, hr, -⟩, -⟩
        exact Option.noConfusion hr
    · dsimp only
      by_cases hrk : rook.type = PieceType.rook ∧ rook.color = king.color ∧
        ¬ hasMovedB rook = true
      · rw [if_neg (not_not_intro hrk)]
        by_cases hemp : (intRangeEx (min srcCol (if tgtCol > srcCol then 7 else 0) + 1)
            (max srcCol (if tgtCol > srcCol then 7 else 0))).all
            (fun col => (pieceAtRC board tgtRow col).isNone) = true
        · rw [if_neg (not_not_intro hemp)]
          by_cases hchk : ChessUtilsRules.isKingInCheck board king.color = true
          · rw [if_pos hchk]
            constructor
            · intro h; simp at h
            · rintro ⟨-, -, -, h4, -⟩; rw [hchk] at h4; cases h4
          · rw [if_neg hchk]
            by_cases hstep : ChessUtilsRules.isSquareUnderAttack board tgtRow
                (if tgtCol > srcCol then srcCol + 1 else srcCol - 1) king.color = true
            · rw [if_pos hstep]
              constructor
              · intro h; simp at h
              · rintro ⟨-, -, -, -, h5, -⟩; rw [hstep] at h5; cases h5
            · rw [if_neg hstep]
              by_cases htgt : ChessUtilsRules.isSquareUnderAttack board tgtRow
                  tgtCol king.color = true
              · rw [if_pos htgt]
                constructor
                · intro h; simp at h
                · rintro ⟨-, -, -, -, -, h6⟩; rw [htgt] at h6; cases h6
              · rw [if_neg htgt]
                constructor
                · intro _
                  refine ⟨by simpa using hm, ⟨rook, rfl, hrk.1, hrk.2.1,
                    by simpa using hrk.2.2⟩, ?_, by simpa using hchk,
                    by simpa using hstep, by simpa using htgt⟩
                  intro c hc1 hc2
                  have := (intRangeEx_all_iff _ _ _).mp hemp c (by omega) (by omega)
                  simpa [Option.isNone_iff_eq_none] using this
                · intro _; rfl
        · rw [if_pos hemp]
          constructor
          · intro h; simp at h
          · rintro ⟨-, -, h3, -⟩
            refine absurd ?_ hemp
            rw [intRangeEx_all_iff]
            intro c hc1 hc2
            have := h3 c (by omega) (by omega)
            simp [Option.isNone_iff_eq_none, this]
      · rw [if_pos hrk]
        constructor
        · intro h; simp at h
        · rintro ⟨-, ⟨rook2, hr2, ht2, hc2, hmv2⟩, -⟩
          injection hr2 with he
          subst he
          exact (hrk ⟨ht2, hc2, by simp [hmv2]⟩).elim

def c3King : ChessPiece :=
  { id := 5, type := PieceType.king, color := PieceColor.white,
    position := "e1", hasMoved := none }

def c3Rook : ChessPiece :=
  { id := 8, type := PieceType.rook, color := PieceColor.white,
    position := "h1", hasMoved := none }

def c3BlackKing : ChessPiece :=
  { id := 21, type := PieceType.king, color := PieceColor.black,
    position := "e8", hasMoved := none }

def c3Board : Board :=
  setPieceRC (setPieceRC (setPieceRC AppService.createEmptyBoard
    7 4 (some c3King)) 7 7 (some c3Rook)) 0 4 (some c3BlackKing)

set_option maxRecDepth 100000 in
/-- Witness for C3: white king-side castling e1-g1 with the rook on h1 and
no other white-side pieces satisfies the characterization. -/
theorem C3_castling_characterization_witness :
    (7 : Int) = 7 ∧ ((4 : Int) - 6).natAbs = 2 ∧
    BasicValidation.isValidCoordinates 7 6 = true ∧
    (ChessUtilsRules.isValidKingMove c3Board c3King 7 4 7 6 = true ↔
      castlingSpec c3Board c3King 7 4 7 6) :=
  ⟨rfl, by decide, by decide,
    C3_castling_characterization c3Board c3King 7 4 7 6 rfl (by decide) (by decide)⟩

/-- The board-level inverse named by the claim: swap the contents of the
two affected squares back (defined from the claim's words, to be
compared with what `simulateMove` leaves behind). -/
def swapSquares (b : Board) (fromP toP : String) : Board :=
  let fromCoords := BasicValidation.positionToCoordinates fromP
  let toCoords := BasicValidation.positionToCoordinates toP
  let p1 := pieceAtRC b fromCoords.row fromCoords.col
  let p2 := pieceAtRC b toCoords.row toCoords.col
  setPieceRC (setPieceRC b fromCoords.row fromCoords.col p2)
    toCoords.row toCoords.col p1

/-- Erase every piece's `hasMoved` flag: two boards are "byte-for-byte
equal except for the `hasMoved` flag" (the claim's reading) exactly when
their `eraseHasMoved` images are equal. -/
def eraseHasMoved (b : Board) : Board :=
  b.map (fun row => row.map (fun sq =>
    { sq with piece := sq.piece.map (fun p => { p with hasMoved := none }) }))

/-- The white e-pawn on e2 of the starting position (`id` 13). -/
def c8PawnE2 : ChessPiece :=
  { id := 13, type := PieceType.pawn, color := PieceColor.white,
    position := "e2", hasMoved := none }

set_option maxRecDepth 100000 in
/-- Claim C8 (counterexample): on the starting board the legal pawn move
e2–e3, applied by `simulateMove` and then inverted by swapping the two
squares back, does NOT reproduce the board byte-for-byte up to the
`hasMoved` flag: `simulateMove` also rewrites the moved piece's
`position` field to the destination, so the boards differ even after
erasing every `hasMoved` flag. -/
theorem C8_counterexample :
    AdvancedRules.isLegalMove AppService.initializeGame.board c8PawnE2 6 4 5 4 =
      true ∧
    BasicValidation.positionToCoordinates "e2" = ⟨6, 4⟩ ∧
    BasicValidation.positionToCoordinates "e3" = ⟨5, 4⟩ ∧
    eraseHasMoved (swapSquares
        (CoreUtils.simulateMove AppService.initializeGame.board "e2" "e3")
        "e2" "e3") ≠
      eraseHasMoved AppService.initializeGame.board := by
  decide

/-- Claim C8 (amended): applying a legal non-capture move with
`simulateMove` and then its board-level inverse (swapping the two
affected squares back) reproduces the original board byte-for-byte
except for the moved piece's `hasMoved` flag AND its `position` field
(which `simulateMove` rewrites to the destination); equivalently, the
round trip equals the original board with only that one square's
occupant replaced by the same piece with `position := to` and
`hasMoved := true`.  (For capture moves the swap cannot restore the
captured piece at all.) -/
theorem C8_roundtrip_changes_hasMoved_and_position
    (b : Board) (p : ChessPiece) (fromP toP : String)
    (hwf : wfBoard b)
    (hfrom : pieceAtRC b (BasicValidation.positionToCoordinates fromP).row
      (BasicValidation.positionToCoordinates fromP).col = some p)
    (hto : pieceAtRC b (BasicValidation.positionToCoordinates toP).row
      (BasicValidation.positionToCoordinates toP).col = none)
    (hleg : AdvancedRules.isLegalMove b p
      (BasicValidation.positionToCoordinates fromP).row
      (BasicValidation.positionToCoordinates fromP).col
      (BasicValidation.positionToCoordinates toP).row
      (BasicValidation.positionToCoordinates toP).col = true) :
    swapSquares (CoreUtils.simulateMove b fromP toP) fromP toP =
      setPieceRC b (BasicValidation.positionToCoordinates fromP).row
        (BasicValidation.positionToCoordinates fromP).col
        (some { p with position := toP, hasMoved := some true }) := by
  have hbF := pieceAtRC_some_bounds b _ _ p hwf hfrom
  have hvm : BasicValidation.isValidMove b p
      (BasicValidation.positionToCoordinates fromP).row
      (BasicValidation.positionToCoordinates fromP).col
      (BasicValidation.positionToCoordinates toP).row
      (BasicValidation.positionToCoordinates toP).col = true := by
    unfold AdvancedRules.isLegalMove at hleg
    simp only [Bool.and_eq_true] at hleg
    exact hleg.1
  have hvT := BasicValidation.isValidMove_to_valid _ _ _ _ _ _ hvm
  have hbT : 0 ≤ (BasicValidation.positionToCoordinates toP).row ∧
      (BasicValidation.positionToCoordinates toP).row < 8 ∧
      0 ≤ (BasicValidation.positionToCoordinates toP).col ∧
      (BasicValidation.positionToCoordinates toP).col < 8 := by
    simp [BasicValidation.isValidCoordinates, BasicValidation.BOARD_SIZE] at hvT
    omega
  have hne : ¬ ((BasicValidation.positionToCoordinates fromP).row =
      (BasicValidation.positionToCoordinates toP).row ∧
      (BasicValidation.positionToCoordinates fromP).col =
      (BasicValidation.positionToCoordinates toP).col) := by
    rintro ⟨h1, h2⟩
    rw [h1, h2, hto] at hfrom
    cases hfrom
  have hneT : ¬ ((BasicValidation.positionToCoordinates toP).row =
      (BasicValidation.positionToCoordinates fromP).row ∧
      (BasicValidation.positionToCoordinates toP).col =
      (BasicValidation.positionToCoordinates fromP).col) := by
    rintro ⟨h1, h2⟩
    exact hne ⟨h1.symm, h2.symm⟩
  have hsim : CoreUtils.simulateMove b fromP toP =
      setPieceRC (setPieceRC b (BasicValidation.positionToCoordinates toP).row
          (BasicValidation.positionToCoordinates toP).col
          (some { p with position := toP, hasMoved := some true }))
        (BasicValidation.positionToCoordinates fromP).row
        (BasicValidation.positionToCoordinates fromP).col none := by
    unfold CoreUtils.simulateMove
    simp only [CoreUtils.deepCloneBoard_eq]
    rw [hfrom]
  have hwfY : wfBoard (setPieceRC b (BasicValidation.positionToCoordinates toP).row
      (BasicValidation.positionToCoordinates toP).col
      (some { p with position := toP, hasMoved := some true })) :=
    wfBoard_setPieceRC _ _ _ _ hwf
  have hwfX : wfBoard (setPieceRC (setPieceRC b
      (BasicValidation.positionToCoordinates toP).row
      (BasicValidation.positionToCoordinates toP).col
      (some { p with position := toP, hasMoved := some true }))
      (BasicValidation.positionToCoordinates fromP).row
      (BasicValidation.positionToCoordinates fromP).col none) :=
    wfBoard_setPieceRC _ _ _ _ hwfY
  unfold swapSquares
  dsimp only
  rw [hsim]
  rw [pieceAtRC_set_same _ _ _ _ hwfY hbF]
  rw [pieceAtRC_set_ne _ _ _ _ _ _ hwfY hbF hbT hne,
    pieceAtRC_set_same _ _ _ _ hwf hbT]
  rw [setPieceRC_absorb]
  rw [setPieceRC_comm _ _ _ _ _ _ _ hwfY hbF hbT hne]
  rw [setPieceRC_absorb]
  rw [setPieceRC_self b _ _ none hwf hbT hto]

set_option maxRecDepth 100000 in
/-- Witness for C8 (amended): the legal non-capture pawn move e2–e3 on
the starting board satisfies the hypotheses, so the round trip equals
the start board with only the e2 occupant's `position`/`hasMoved`
rewritten. -/
theorem C8_roundtrip_changes_hasMoved_and_position_witness :
    wfBoard AppService.initializeGame.board ∧
    pieceAtRC AppService.initializeGame.board 6 4 = some c8PawnE2 ∧
    pieceAtRC AppService.initializeGame.board 5 4 = none ∧
    AdvancedRules.isLegalMove AppService.initializeGame.board c8PawnE2 6 4 5 4 =
      true ∧
    swapSquares (CoreUtils.simulateMove AppService.initializeGame.board "e2" "e3")
        "e2" "e3" =
      setPieceRC AppService.initializeGame.board 6 4
        (some { c8PawnE2 with position := "e3", hasMoved := some true }) := by
  have h1 : wfBoard AppService.initializeGame.board := by decide
  have h2 : pieceAtRC AppService.initializeGame.board
      (BasicValidation.positionToCoordinates "e2").row
      (BasicValidation.positionToCoordinates "e2").col = some c8PawnE2 := by decide
  have h3 : pieceAtRC AppService.initializeGame.board
      (BasicValidation.positionToCoordinates "e3").row
      (BasicValidation.positionToCoordinates "e3").col = none := by decide
  have h4 : AdvancedRules.isLegalMove AppService.initializeGame.board c8PawnE2
      (BasicValidation.positionToCoordinates "e2").row
      (BasicValidation.positionToCoordinates "e2").col
      (BasicValidation.positionToCoordinates "e3").row
      (BasicValidation.positionToCoordinates "e3").col = true := by decide
  have h5 := C8_roundtrip_changes_hasMoved_and_position
    AppService.initializeGame.board c8PawnE2 "e2" "e3" h1 h2 h3 h4
  exact ⟨h1, h2, h3, h4, h5⟩

/-- Claim C10: `makeMove` refuses a fully rule-valid white (human) move
after which black has a move delivering immediate checkmate: it returns
`success = false` with an error and leaves the board unchanged, only
raising the confirmation modal; AI moves through `executeAiMove` are
never gated this way — they are `executeMove` itself and succeed
whenever plain validation succeeds. -/
theorem C10_dangerous_white_moves_gated :
    (∀ (cfg : AppService.DisplayCfg) (s : AppService.AppState)
      (fromPos toPos : String) (p : ChessPiece) (sb : Board),
      BasicValidation.getPieceAtPosition s.board fromPos = some p →
      p.color = PieceColor.white →
      AppService.simulatePlayerMove cfg s fromPos toPos = some sb →
      AppService.canBlackMakeCheckmate sb = true →
      AppService.makeMove cfg s fromPos toPos =
        (AppService.failure "Esperando confirmación - movimiento peligroso",
          { s with modalShow := true, modalFrom := fromPos, modalTo := toPos })) ∧
    (∀ (cfg : AppService.DisplayCfg) (s : AppService.AppState) (fromPos toPos : String),
      AppService.executeAiMove cfg s fromPos toPos =
        AppService.executeMove cfg s fromPos toPos ∧
      ((AppService.validateMoveInternal cfg s fromPos toPos false).1.success = true →
        (AppService.executeAiMove cfg s fromPos toPos).1.success = true)) := by
  constructor
  · intro cfg s fromPos toPos p sb hp hw hsim hck
    unfold AppService.makeMove
    rw [hp]
    dsimp only
    rw [if_pos hw, hsim]
    dsimp only
    rw [if_pos hck]
  · intro cfg s fromPos toPos
    exact ⟨rfl, fun h =>
      AppService.validateMoveInternal_exec_success cfg s fromPos toPos h⟩

/-- A position in which white's quiet pawn move a2–a3 lets black mate at
once with Re8–e1 (back-rank mate against the king on h1). -/
def c10Board : Board :=
  AppService.placePiece
    (AppService.placePiece
      (AppService.placePiece
        (AppService.placePiece
          (AppService.placePiece
            (AppService.placePiece AppService.createEmptyBoard
              "h1" { id := 1, type := PieceType.king, color := PieceColor.white,
                     position := "h1", hasMoved := none })
            "g2" { id := 2, type := PieceType.pawn, color := PieceColor.white,
                   position := "g2", hasMoved := none })
          "h2" { id := 3, type := PieceType.pawn, color := PieceColor.white,
                 position := "h2", hasMoved := none })
        "a2" { id := 4, type := PieceType.pawn, color := PieceColor.white,
               position := "a2", hasMoved := none })
      "e8" { id := 5, type := PieceType.rook, color := PieceColor.black,
             position := "e8", hasMoved := none })
    "d5" { id := 6, type := PieceType.king, color := PieceColor.black,
           position := "d5", hasMoved := none }

/-- An active game state on `c10Board` with white to move. -/
def c10State : AppService.AppState :=
  { board := c10Board
    currentTurn := PieceColor.white
    moveHistory := []
    totalMovements := 0
    whiteCaptures := 0
    blackCaptures := 0
    whiteInCheck := false
    blackInCheck := false
    winnerColor := none
    gameOver := false
    gameInitialized := true
    modalShow := false
    modalFrom := ""
    modalTo := ""
    prevBoard := c10Board }

/-- The white a-pawn of `c10Board` (its `position` field is untouched by
`simulatePlayerMove`). -/
def c10PawnA2 : ChessPiece :=
  { id := 4, type := PieceType.pawn, color := PieceColor.white,
    position := "a2", hasMoved := none }

/-- The board `simulatePlayerMove` produces for a2–a3 on `c10Board`. -/
def c10Sim : Board :=
  setPieceRC (setPieceRC c10Board 5 0 (some c10PawnA2)) 6 0 none

/-- The same position with black to move (for the ungated AI direction). -/
def c10BlackState : AppService.AppState :=
  { c10State with currentTurn := PieceColor.black }

set_option maxRecDepth 100000 in
/-- Witness for C10: in `c10State` the rule-valid white move a2–a3 is
gated (black can mate with Re8–e1), while with black to move the AI path
executes Re8–e1 directly. -/
theorem C10_dangerous_white_moves_gated_witness :
    (BasicValidation.getPieceAtPosition c10State.board "a2" = some c10PawnA2 ∧
     AppService.simulatePlayerMove AppService.placeholderCfg c10State "a2" "a3" =
       some c10Sim ∧
     AppService.canBlackMakeCheckmate c10Sim = true ∧
     AppService.makeMove AppService.placeholderCfg c10State "a2" "a3" =
       (AppService.failure "Esperando confirmación - movimiento peligroso",
         { c10State with modalShow := true, modalFrom := "a2", modalTo := "a3" })) ∧
    ((AppService.validateMoveInternal AppService.placeholderCfg c10BlackState
        "e8" "e1" false).1.success = true ∧
     (AppService.executeAiMove AppService.placeholderCfg c10BlackState
        "e8" "e1").1.success = true) := by
  have h1 : BasicValidation.getPieceAtPosition c10State.board "a2" = some c10PawnA2 := by
    decide
  have h2 : c10PawnA2.color = PieceColor.white := by decide
  have h3 : AppService.simulatePlayerMove AppService.placeholderCfg c10State
      "a2" "a3" = some c10Sim := by decide
  have h4 : AppService.canBlackMakeCheckmate c10Sim = true := by decide
  have h5 : (AppService.validateMoveInternal AppService.placeholderCfg c10BlackState
      "e8" "e1" false).1.success = true := by decide
  exact ⟨⟨h1, h3, h4,
      C10_dangerous_white_moves_gated.1 AppService.placeholderCfg c10State
        "a2" "a3" c10PawnA2 c10Sim h1 h2 h3 h4⟩,
    h5, (C10_dangerous_white_moves_gated.2 AppService.placeholderCfg c10BlackState
      "e8" "e1").2 h5⟩


set_option maxRecDepth 100000 in
/-- Claim C6, amended: the partition/single-worker equivalence holds for
the cache-free, timeout-free idealization of the worker search
(`evaluateMovesIdeal`, where each move's score is the pure alpha-beta
value of its position): for every board with black candidate-move list
`M` and every split of `M` into batches (in particular the ceil-sized
worker slices, whether `N` divides the list evenly or not), evaluating
each batch and reducing the flattened partial results by keeping the
strictly higher score yields the same best move as evaluating the full
list `M` as a single batch.  For the faithful stateful worker
(`Worker.evaluateMoves`, with the per-batch transposition table and the
wall-clock budget of `ai.worker.ts`) the equivalence is false:
`C6_counterexample` below exhibits a board and the worker slicing on
which the single batch and the partition pick different moves. -/
theorem C6_worker_partition_equivalence (board : Board)
    (parts : List (List Worker.AiMove))
    (hp : parts.flatten = WorkerPool.getAllPossibleMoves board) :
    WorkerPool.findBestFromResults
        ((parts.map (fun batch => Worker.evaluateMovesIdeal board batch)).flatten) =
      WorkerPool.findBestFromResults
        (Worker.evaluateMovesIdeal board (WorkerPool.getAllPossibleMoves board)) := by
  rw [WorkerPool.findBestFromResults_eq_foldl, WorkerPool.findBestFromResults_eq_foldl]
  unfold Worker.evaluateMovesIdeal
  have hmm : parts.map (fun batch => Worker.sortByScoreDesc (batch.map
      (fun move => { move with score := Worker.rootScoreIdeal board move }))) =
      (parts.map (List.map (fun move =>
        { move with score := Worker.rootScoreIdeal board move }))).map
        Worker.sortByScoreDesc := by
    rw [List.map_map]
    rfl
  rw [hmm, WorkerPool.foldl_reduceStep_flatten_sort,
    WorkerPool.flatten_map_comm, hp, WorkerPool.foldl_reduceStep_sort]

def c6WhiteKing : ChessPiece :=
  { id := 5, type := PieceType.king, color := PieceColor.white,
    position := "h1", hasMoved := none }

def c6BlackKing : ChessPiece :=
  { id := 21, type := PieceType.king, color := PieceColor.black,
    position := "d5", hasMoved := none }

def c6BlackRook : ChessPiece :=
  { id := 17, type := PieceType.rook, color := PieceColor.black,
    position := "e8", hasMoved := none }

def c6Board : Board :=
  setPieceRC (setPieceRC (setPieceRC AppService.createEmptyBoard
    7 7 (some c6WhiteKing)) 3 3 (some c6BlackKing)) 0 4 (some c6BlackRook)

set_option maxRecDepth 100000 in
/-- Witness for C6: the black moves of a three-piece endgame, split into
the three uneven ceil-sized worker slices. -/
theorem C6_worker_partition_equivalence_witness :
    (WorkerPool.partitionForWorkers (WorkerPool.getAllPossibleMoves c6Board)
          3).flatten = WorkerPool.getAllPossibleMoves c6Board ∧
    WorkerPool.findBestFromResults
        (((WorkerPool.partitionForWorkers
            (WorkerPool.getAllPossibleMoves c6Board) 3).map
          (fun batch => Worker.evaluateMovesIdeal c6Board batch)).flatten) =
      WorkerPool.findBestFromResults
        (Worker.evaluateMovesIdeal c6Board
          (WorkerPool.getAllPossibleMoves c6Board)) :=
  ⟨by decide, C6_worker_partition_equivalence c6Board
    (WorkerPool.partitionForWorkers (WorkerPool.getAllPossibleMoves c6Board) 3)
    (by decide)⟩


/-- Modelled from the spec: swap the color of a piece. -/
def colorSwapPiece (p : ChessPiece) : ChessPiece :=
  { p with color := oppColor p.color }

/-- Modelled from the spec: the board obtained by swapping the color of
every piece and mirroring the piece placement vertically (each square
keeps its own coordinates). -/
def mirrorSwap (b : Board) : Board :=
  (List.range 8).map (fun r =>
    (List.range 8).map (fun c =>
      { Evaluation.sqAtN b r c with
          piece := (Evaluation.pieceAtN b (7 - r) c).map colorSwapPiece }))

theorem colorSwapPiece_type (p : ChessPiece) :
    (colorSwapPiece p).type = p.type := rfl

theorem colorSwapPiece_color (p : ChessPiece) :
    (colorSwapPiece p).color = oppColor p.color := rfl

theorem oppColor_inj (a b : PieceColor) : oppColor a = oppColor b ↔ a = b := by
  cases a <;> cases b <;> simp [oppColor]

theorem getD_map_range {α : Type} (n : Nat) (f : Nat → α) (r : Nat) (d : α)
    (h : r < n) : ((List.range n).map f).getD r d = f r := by
  rw [List.getD_eq_getElem?_getD, List.getElem?_map, List.getElem?_range h]
  rfl

/-- The mirrored occupant of an in-range square. -/
theorem pieceAtN_mirror (b : Board) (r c : Nat) (hr : r < 8) (hc : c < 8) :
    Evaluation.pieceAtN (mirrorSwap b) r c =
      (Evaluation.pieceAtN b (7 - r) c).map colorSwapPiece := by
  show ((((mirrorSwap b).getD r []).getD c oobSquare).piece) = _
  unfold mirrorSwap
  rw [getD_map_range 8 _ r [] hr, getD_map_range 8 _ c oobSquare hc]

theorem multiplier_not (w : Bool) :
    Evaluation.multiplier (!w) = - Evaluation.multiplier w := by
  cases w <;> norm_num [Evaluation.multiplier]

theorem getPositionalValue_mirror (t : PieceType) (R c : Nat) (hR : R < 8)
    (w : Bool) :
    Evaluation.getPositionalValue t (7 - R) c (!w) =
      Evaluation.getPositionalValue t R c w := by
  unfold Evaluation.getPositionalValue
  cases w
  · simp only [Bool.not_false, Bool.false_eq_true, if_true, if_false]
    rw [show 7 - (7 - R) = R from by omega]
  · simp only [Bool.not_true, Bool.false_eq_true, if_true, if_false]

theorem getDevelopmentScore_mirror (p : ChessPiece) (R : Nat) (hR : R < 8)
    (w : Bool) :
    Evaluation.getDevelopmentScore (colorSwapPiece p) (7 - R) (!w) =
      Evaluation.getDevelopmentScore p R w := by
  unfold Evaluation.getDevelopmentScore
  simp only [colorSwapPiece_type]
  by_cases ht : p.type = PieceType.knight ∨ p.type = PieceType.bishop
  · rw [if_pos ht, if_pos ht]
    cases w <;>
      simp only [Bool.not_false, Bool.not_true, Bool.false_eq_true, if_true,
        if_false] <;>
      exact if_congr (by omega) rfl rfl
  · rw [if_neg ht, if_neg ht]

theorem getKingSafetyScore_mirror (p : ChessPiece) (R c : Nat) (hR : R < 8)
    (w : Bool) :
    Evaluation.getKingSafetyScore (colorSwapPiece p) (7 - R) c (!w) =
      Evaluation.getKingSafetyScore p R c w := by
  unfold Evaluation.getKingSafetyScore
  simp only [colorSwapPiece_type]
  by_cases ht : p.type ≠ PieceType.king
  · rw [if_pos ht, if_pos ht]
  · rw [if_neg ht, if_neg ht]
    congr 1
    cases w <;>
      simp only [Bool.not_false, Bool.not_true, Bool.false_eq_true,
        eq_self_iff_true, not_true, not_false_iff, true_and, false_and,
        and_true, and_false, or_false, false_or, if_true, if_false] <;>
      exact if_congr (by omega) rfl rfl

theorem doubledPawnCount_mirror (b : Board) (p : ChessPiece) (R c : Nat)
    (hR : R < 8) (hc : c < 8) :
    Evaluation.doubledPawnCount (mirrorSwap b) (colorSwapPiece p) (7 - R) c =
      Evaluation.doubledPawnCount b p R c := by
  unfold Evaluation.doubledPawnCount
  rw [← Finset.sum_range_reflect (fun r =>
    if r ≠ R ∧ (∃ q, Evaluation.pieceAtN b r c = some q ∧
        q.type = PieceType.pawn ∧ q.color = p.color) then (1 : ℚ) else 0) 8]
  apply Finset.sum_congr rfl
  intro j hj
  have hj8 : j < 8 := Finset.mem_range.mp hj
  rw [pieceAtN_mirror b j c hj8 hc]
  rw [show 8 - 1 - j = 7 - j from rfl]
  apply if_congr ?_ rfl rfl
  constructor
  · rintro ⟨hne, q', hq', htq, hcq⟩
    obtain ⟨q, ho, rfl⟩ := Option.map_eq_some'.mp hq'
    refine ⟨by omega, q, ho, htq, ?_⟩
    rw [colorSwapPiece_color, colorSwapPiece_color] at hcq
    exact (oppColor_inj _ _).mp hcq
  · rintro ⟨hne, q, ho, htq, hcq⟩
    refine ⟨by omega, colorSwapPiece q, by rw [ho]; rfl, htq, ?_⟩
    rw [colorSwapPiece_color, colorSwapPiece_color]
    exact congrArg oppColor hcq

theorem bool_eq_of_iff {a b : Bool} (h : a = true ↔ b = true) : a = b := by
  cases a <;> cases b <;> simp_all

theorem hasFriendlyPawnInCol_mirror (b : Board) (p : ChessPiece) (cc : Int) :
    Evaluation.hasFriendlyPawnInCol (mirrorSwap b) (colorSwapPiece p) cc =
      Evaluation.hasFriendlyPawnInCol b p cc := by
  unfold Evaluation.hasFriendlyPawnInCol
  by_cases hin : 0 ≤ cc ∧ cc < 8
  · rw [if_pos hin, if_pos hin]
    have hcn : cc.toNat < 8 := by omega
    apply bool_eq_of_iff
    rw [List.any_eq_true, List.any_eq_true]
    constructor
    · rintro ⟨r, hrm, hg⟩
      have hr8 : r < 8 := List.mem_range.mp hrm
      rw [pieceAtN_mirror b r cc.toNat hr8 hcn] at hg
      refine ⟨7 - r, List.mem_range.mpr (by omega), ?_⟩
      rcases ho : Evaluation.pieceAtN b (7 - r) cc.toNat with _ | q
      · rw [ho] at hg; simp at hg
      · rw [ho] at hg
        simp only [Option.map_some'] at hg
        simp only [decide_eq_true_eq] at hg
        rw [colorSwapPiece_color, colorSwapPiece_color] at hg
        simp only [decide_eq_true_eq]
        exact ⟨hg.1, (oppColor_inj _ _).mp hg.2⟩
    · rintro ⟨r, hrm, hg⟩
      have hr8 : r < 8 := List.mem_range.mp hrm
      refine ⟨7 - r, List.mem_range.mpr (by omega), ?_⟩
      rw [pieceAtN_mirror b (7 - r) cc.toNat (by omega) hcn]
      rw [show 7 - (7 - r) = r from by omega]
      rcases ho : Evaluation.pieceAtN b r cc.toNat with _ | q
      · rw [ho] at hg; simp at hg
      · rw [ho] at hg
        simp only [decide_eq_true_eq] at hg
        simp only [Option.map_some', decide_eq_true_eq]
        rw [colorSwapPiece_color, colorSwapPiece_color]
        exact ⟨hg.1, congrArg oppColor hg.2⟩
  · rw [if_neg hin, if_neg hin]

theorem getPawnStructureScore_mirror (b : Board) (p : ChessPiece) (R c : Nat)
    (hR : R < 8) (hc : c < 8) :
    Evaluation.getPawnStructureScore (mirrorSwap b) (colorSwapPiece p) (7 - R) c =
      Evaluation.getPawnStructureScore b p R c := by
  unfold Evaluation.getPawnStructureScore
  simp only [colorSwapPiece_type]
  by_cases ht : p.type ≠ PieceType.pawn
  · rw [if_pos ht, if_pos ht]
  · rw [if_neg ht, if_neg ht]
    rw [doubledPawnCount_mirror b p R c hR hc,
      hasFriendlyPawnInCol_mirror b p ((c : Int) - 1),
      hasFriendlyPawnInCol_mirror b p ((c : Int) + 1)]

theorem isWhite_swap (p : ChessPiece) :
    decide ((colorSwapPiece p).color = PieceColor.white) =
      ! decide (p.color = PieceColor.white) := by
  rcases p with ⟨i, t, col, pos, hm⟩
  cases col <;> rfl

/-- One mirrored square contributes the negated score of its source
square. -/
theorem squareScore_mirror (b : Board) (R c : Nat) (hR : R < 8) (hc : c < 8) :
    Evaluation.squareScore (mirrorSwap b) (7 - R) c =
      - Evaluation.squareScore b R c := by
  unfold Evaluation.squareScore
  rw [pieceAtN_mirror b (7 - R) c (by omega) hc]
  rw [show 7 - (7 - R) = R from by omega]
  rcases hq : Evaluation.pieceAtN b R c with _ | p
  · simp
  · simp only [Option.map_some']
    rw [isWhite_swap p, multiplier_not, colorSwapPiece_type,
      getPositionalValue_mirror p.type R c hR,
      getDevelopmentScore_mirror p R hR,
      getKingSafetyScore_mirror p R c hR,
      getPawnStructureScore_mirror b p R c hR hc]
    ring

set_option maxRecDepth 100000 in
/-- Claim C5: the static evaluator is sign-anti-symmetric: color-swapping
every piece and mirroring the placement vertically negates the score
exactly, so a board evaluating equal to its own mirror image (identical
material and placement for both sides) evaluates to 0. -/
theorem C5_evaluator_antisymmetry (board : Board) :
    Evaluation.evaluateBoard (mirrorSwap board) =
        - Evaluation.evaluateBoard board ∧
      (Evaluation.evaluateBoard (mirrorSwap board) =
          Evaluation.evaluateBoard board →
        Evaluation.evaluateBoard board = 0) := by
  have hmain : Evaluation.evaluateBoard (mirrorSwap board) =
      - Evaluation.evaluateBoard board := by
    unfold Evaluation.evaluateBoard
    rw [← Finset.sum_range_reflect (fun r => ∑ c ∈ Finset.range 8,
      Evaluation.squareScore (mirrorSwap board) r c) 8]
    rw [← Finset.sum_neg_distrib]
    apply Finset.sum_congr rfl
    intro j hj
    have hj8 : j < 8 := Finset.mem_range.mp hj
    rw [show 8 - 1 - j = 7 - j from rfl]
    rw [← Finset.sum_neg_distrib]
    apply Finset.sum_congr rfl
    intro c hcm
    exact squareScore_mirror board j c hj8 (Finset.mem_range.mp hcm)
  refine ⟨hmain, fun hsym => ?_⟩
  rw [hmain] at hsym
  linarith

set_option maxRecDepth 100000 in
/-- Witness for C5: the empty board, which is its own mirror image up to
square bookkeeping and evaluates to 0. -/
theorem C5_evaluator_antisymmetry_witness :
    Evaluation.evaluateBoard (mirrorSwap AppService.createEmptyBoard) =
        - Evaluation.evaluateBoard AppService.createEmptyBoard ∧
      Evaluation.evaluateBoard AppService.createEmptyBoard = 0 :=
  ⟨(C5_evaluator_antisymmetry AppService.createEmptyBoard).1,
    (C5_evaluator_antisymmetry AppService.createEmptyBoard).2 (by rfl)⟩

/-- A piece literal for the C6 counterexample board. -/
def c6tP (id : Int) (t : PieceType) (c : PieceColor) (pos : String) : ChessPiece :=
  { id := id, type := t, color := c, position := pos, hasMoved := none }

/-- The pieces of the C6 counterexample board.  White is completely
frozen: the king on h1 is boxed in by its own pawns and both the g- and
h-file pawn chains are blocked all the way to the eighth rank, so white
has no rule-valid move anywhere in the search.  Black's king on a8 is
boxed in by its own pawns and the full a- and b-file black pawn chains
are likewise mutually blocked, so black's only candidate moves are the
single advances of the three mobile pawns on c5, d5 and e5. -/
def c6tPieces : List ((Int × Int) × ChessPiece) :=
  [((7,7), c6tP 1 PieceType.king PieceColor.white "h1"),
   ((7,6), c6tP 2 PieceType.pawn PieceColor.white "g1"),
   ((6,6), c6tP 3 PieceType.pawn PieceColor.white "g2"),
   ((5,6), c6tP 4 PieceType.pawn PieceColor.white "g3"),
   ((4,6), c6tP 5 PieceType.pawn PieceColor.white "g4"),
   ((3,6), c6tP 6 PieceType.pawn PieceColor.white "g5"),
   ((2,6), c6tP 7 PieceType.pawn PieceColor.white "g6"),
   ((1,6), c6tP 8 PieceType.pawn PieceColor.white "g7"),
   ((0,6), c6tP 9 PieceType.pawn PieceColor.white "g8"),
   ((6,7), c6tP 10 PieceType.pawn PieceColor.white "h2"),
   ((5,7), c6tP 11 PieceType.pawn PieceColor.white "h3"),
   ((4,7), c6tP 12 PieceType.pawn PieceColor.white "h4"),
   ((3,7), c6tP 13 PieceType.pawn PieceColor.white "h5"),
   ((2,7), c6tP 14 PieceType.pawn PieceColor.white "h6"),
   ((1,7), c6tP 15 PieceType.pawn PieceColor.white "h7"),
   ((0,7), c6tP 16 PieceType.pawn PieceColor.white "h8"),
   ((0,0), c6tP 21 PieceType.king PieceColor.black "a8"),
   ((0,1), c6tP 22 PieceType.pawn PieceColor.black "b8"),
   ((1,0), c6tP 23 PieceType.pawn PieceColor.black "a7"),
   ((1,1), c6tP 24 PieceType.pawn PieceColor.black "b7"),
   ((2,0), c6tP 25 PieceType.pawn PieceColor.black "a6"),
   ((2,1), c6tP 26 PieceType.pawn PieceColor.black "b6"),
   ((3,0), c6tP 27 PieceType.pawn PieceColor.black "a5"),
   ((3,1), c6tP 28 PieceType.pawn PieceColor.black "b5"),
   ((4,0), c6tP 29 PieceType.pawn PieceColor.black "a4"),
   ((4,1), c6tP 30 PieceType.pawn PieceColor.black "b4"),
   ((5,0), c6tP 31 PieceType.pawn PieceColor.black "a3"),
   ((5,1), c6tP 32 PieceType.pawn PieceColor.black "b3"),
   ((6,0), c6tP 33 PieceType.pawn PieceColor.black "a2"),
   ((6,1), c6tP 34 PieceType.pawn PieceColor.black "b2"),
   ((7,0), c6tP 35 PieceType.pawn PieceColor.black "a1"),
   ((7,1), c6tP 36 PieceType.pawn PieceColor.black "b1"),
   ((3,2), c6tP 41 PieceType.pawn PieceColor.black "c5"),
   ((3,3), c6tP 42 PieceType.pawn PieceColor.black "d5"),
   ((3,4), c6tP 43 PieceType.pawn PieceColor.black "e5")]

/-- The C6 counterexample board. -/
def c6tBoard : Board :=
  c6tPieces.foldl (fun b e => setPieceRC b e.1.1 e.1.2 (some e.2))
    AppService.createEmptyBoard

/-- A concrete Zobrist table (any table below `2^31` is a possible draw
of the worker's `initializeZobrist`; the counterexample does not depend
on which one, since every search of it hashes at most one position). -/
def c6tZob : Worker.Zobrist :=
  fun r c t k => (r + 8 * c + 64 * t + 384 * k) * 5000011 % 2147483647

/-- The black candidate-move list of the C6 counterexample board. -/
def c6tM : List Worker.AiMove := WorkerPool.getAllPossibleMoves c6tBoard

/-- The first candidate move, c5-c4. -/
def c6mC5 : Worker.AiMove := { fromP := "c5", toP := "c4", score := Worker.finQ 0 }

/-- The second candidate move, d5-d4. -/
def c6mD5 : Worker.AiMove := { fromP := "d5", toP := "d4", score := Worker.finQ 0 }

/-- The third candidate move, e5-e4. -/
def c6mE5 : Worker.AiMove := { fromP := "e5", toP := "e4", score := Worker.finQ 0 }

set_option allowUnsafeReducibility true in
attribute [semireducible] Rat.add Rat.sub Rat.mul Rat.inv

set_option maxRecDepth 1000000 in
/-- Counterexample to claim C6 as stated, over the faithful stateful
worker: on `c6tBoard` the black candidate-move list is exactly the three
pawn advances c5-c4, d5-d4, e5-e4, and `partitionForWorkers` splits it
across 3 workers into three singleton batches.  White is frozen, so each
move's search costs exactly one work unit; with the time budget `limit =
0` (the request's `MAX_CALCULATION_TIME` expires during the first move's
search, as it can whenever a batch outlasts the budget), the three
partitioned workers each score their one move before their budget check
fires, and the reduce picks d5-d4, the highest static evaluation; the
single worker, whose per-move budget check fires after its first move,
truncates the batch to c5-c4 alone and returns c5-c4 as best.  The same
board and the same slicing thus yield different best moves, refuting the
claimed partition/single-worker equivalence for the real worker (the
timeout break and the batch-shared transposition table both make a
move's score depend on its batch). -/
theorem C6_counterexample :
    c6tM = [c6mC5, c6mD5, c6mE5] ∧
    WorkerPool.partitionForWorkers c6tM 3 = [[c6mC5], [c6mD5], [c6mE5]] ∧
    (WorkerPool.findBestFromResults
        (((WorkerPool.partitionForWorkers c6tM 3).map
          (fun batch => (Worker.evaluateMoves c6tZob 0 c6tBoard batch []).1)).flatten)).map
      (fun m => (m.fromP, m.toP)) = some ("d5", "d4") ∧
    (WorkerPool.findBestFromResults
        ((Worker.evaluateMoves c6tZob 0 c6tBoard c6tM []).1)).map
      (fun m => (m.fromP, m.toP)) = some ("c5", "c4") :=
  ⟨rfl, rfl, rfl, rfl⟩

end Chess
